import Mathlib

/-!
# MerkleBundle (snarkfront) : shallow embedding and verified properties

Source: `src/MerkleBundle.hpp`, class template
`MerkleBundle<TREE, PATH, COUNT>`.

The class is a template: the tree engine `TREE`, the authentication path
record `PATH`, the counter type `COUNT` and the stream operators of the
digest vector live in other headers.  They enter the embedding as the
fields of `Params`; every member function of the bundle is translated
line by line on top of them.
-/

namespace Snarkfront

/-- Input stream: the characters not yet consumed and the fail state that
`!is` and `!(is >> x)` test. -/
structure IStream where
  buf : List Char
  failed : Bool
deriving DecidableEq, Repr

/-- The value of `-1` converted to `std::size_t` (64-bit size type). -/
def SIZE_MAX : Nat := 2 ^ 64 - 1

/-- The template parameters of `MerkleBundle` and the stream operators it
calls.  Each field is one member function or operator that the bundle uses
and that is declared outside `MerkleBundle.hpp`.

* `updatePath t cm ps` is `m_tree.updatePath(cm, m_authPath)`: the call
  hands the tree the leaf and the vector of retained paths; it yields the
  tree after the call and the vector as the call left it.
* `treeIn`, `pathIn` are the `marshal_in(is)` members (they return `bool`);
  `countIn`, `vecIn` are `is >> m_treeSize`, `is >> m_authLeaf` (their
  success is the fail state of the stream afterwards).  Each takes the old
  value of the object it reads into.
* `countBits` is the width of the unsigned integer type `COUNT`. -/
structure Params (Tree Path Dig : Type) where
  treeDefault : Tree
  treeNew : Nat → Tree
  isFull : Tree → Bool
  authPath : Tree → Path
  updatePath : Tree → Dig → List Path → Tree × List Path
  updateSiblings : Tree → Dig → Tree
  treeClear : Tree → Tree
  treeEmpty : Tree → Bool
  treeOut : Tree → List Char
  treeIn : Tree → IStream → Bool × Tree × IStream
  rootHash : Path → Dig
  pathDefault : Path
  pathOut : Path → List Char
  pathIn : Path → IStream → Bool × Path × IStream
  countBits : Nat
  countOut : Nat → List Char
  countIn : Nat → IStream → Nat × IStream
  vecOut : List Dig → List Char
  vecIn : List Dig → IStream → List Dig × IStream

/-- The data members of `MerkleBundle` (lines 131-135). -/
structure MerkleBundle (Tree Path Dig : Type) where
  m_tree : Tree
  m_treeSize : Nat
  m_authLeaf : List Dig
  m_authPath : List Path

namespace MerkleBundle

variable {Tree Path Dig : Type}

/-- Default constructor `MerkleBundle()` (lines 31-33). -/
def construct0 (P : Params Tree Path Dig) : MerkleBundle Tree Path Dig :=
  { m_tree := P.treeDefault, m_treeSize := 0, m_authLeaf := [], m_authPath := [] }

/-- Constructor `MerkleBundle(depth)` (lines 35-38). -/
def construct (P : Params Tree Path Dig) (depth : Nat) : MerkleBundle Tree Path Dig :=
  { m_tree := P.treeNew depth, m_treeSize := 0, m_authLeaf := [], m_authPath := [] }

/-- Member `isFull()` (lines 40-42). -/
def isFull (P : Params Tree Path Dig) (b : MerkleBundle Tree Path Dig) : Bool :=
  P.isFull b.m_tree

/-- Member `treeSize()` (lines 44-46). -/
def treeSize (b : MerkleBundle Tree Path Dig) : Nat :=
  b.m_treeSize

/-- Member `rootHash()` (lines 48-50): `m_tree.authPath().rootHash()`. -/
def rootHash (P : Params Tree Path Dig) (b : MerkleBundle Tree Path Dig) : Dig :=
  P.rootHash (P.authPath b.m_tree)

/-- Member `authLeaf()` (lines 70-72). -/
def authLeaf (b : MerkleBundle Tree Path Dig) : List Dig :=
  b.m_authLeaf

/-- Member `authPath()` (lines 74-76). -/
def authPath (b : MerkleBundle Tree Path Dig) : List Path :=
  b.m_authPath

/-- Member `addLeaf(cm, keepPath)` (lines 52-68).  Returns `pathIndex` and
the bundle after the call.  The statements are taken in source order:
`updatePath`, the index, the two `emplace_back`, `updateSiblings`, the
increment of the `COUNT` counter. -/
def addLeaf (P : Params Tree Path Dig) (b : MerkleBundle Tree Path Dig) (cm : Dig)
    (keepPath : Bool) : Nat × MerkleBundle Tree Path Dig :=
  let up := P.updatePath b.m_tree cm b.m_authPath
  let tree1 := up.1
  let path1 := up.2
  let pathIndex := if keepPath then path1.length else SIZE_MAX
  let leaf2 := if keepPath then b.m_authLeaf ++ [cm] else b.m_authLeaf
  let path2 := if keepPath then path1 ++ [P.authPath tree1] else path1
  let tree2 := P.updateSiblings tree1 cm
  (pathIndex,
    { m_tree := tree2,
      m_treeSize := (b.m_treeSize + 1) % 2 ^ P.countBits,
      m_authLeaf := leaf2,
      m_authPath := path2 })

/-- The loop of `cleanup` (lines 82-88) from index `i` on: `rest` holds
`m_authLeaf[i..]`, `paths` is the whole `m_authPath`.  Reading
`m_authPath[i]` past the end of the vector has no defined result: `none`. -/
def cleanupLoop (func : Dig → Bool) (paths : List Path) :
    List Dig → Nat → List Dig → List Path → Option (List Dig × List Path)
  | [], _, keepLeaf, keepPath => some (keepLeaf, keepPath)
  | cm :: rest, i, keepLeaf, keepPath =>
    if func cm then
      match paths[i]? with
      | none => none
      | some p => cleanupLoop func paths rest (i + 1) (keepLeaf ++ [cm]) (keepPath ++ [p])
    else cleanupLoop func paths rest (i + 1) keepLeaf keepPath

/-- Member `cleanup(func)` (lines 78-92). -/
def cleanup (b : MerkleBundle Tree Path Dig) (func : Dig → Bool) :
    Option (MerkleBundle Tree Path Dig) :=
  match cleanupLoop func b.m_authPath b.m_authLeaf 0 [] [] with
  | none => none
  | some kept => some { b with m_authLeaf := kept.1, m_authPath := kept.2 }

/-- Member `marshal_out(os)` (lines 94-101): the characters appended to the
output stream `os`. -/
def marshal_out (P : Params Tree Path Dig) (b : MerkleBundle Tree Path Dig)
    (os : List Char) : List Char :=
  let os1 := os ++ P.treeOut b.m_tree
  let os2 := os1 ++ P.countOut b.m_treeSize
  let os3 := os2 ++ ['\n']
  let os4 := os3 ++ P.vecOut b.m_authLeaf
  b.m_authPath.foldl (fun o r => o ++ P.pathOut r) os4

/-- The call `m_authPath.resize(n)` of line 107. -/
def resize (dflt : Path) (ps : List Path) (n : Nat) : List Path :=
  ps.take n ++ List.replicate (n - ps.length) dflt

/-- The loop of lines 108-110: every element reads itself from the stream,
the first failure returns `false` at once. -/
def readPaths (P : Params Tree Path Dig) : List Path → IStream → Bool × List Path × IStream
  | [], s => (true, [], s)
  | r :: rest, s =>
    let got := P.pathIn r s
    if got.1 then
      let more := readPaths P rest got.2.2
      (more.1, got.2.1 :: more.2.1, more.2.2)
    else (false, got.2.1 :: rest, got.2.2)

/-- Member `marshal_in(is)` (lines 103-113): the returned `bool`, the bundle
afterwards and the stream afterwards. -/
def marshal_in (P : Params Tree Path Dig) (b : MerkleBundle Tree Path Dig) (s : IStream) :
    Bool × MerkleBundle Tree Path Dig × IStream :=
  let t := P.treeIn b.m_tree s
  if t.1 = false then (false, { b with m_tree := t.2.1 }, t.2.2)
  else
    let n := P.countIn b.m_treeSize t.2.2
    let size := n.1 % 2 ^ P.countBits
    if n.2.failed then (false, { b with m_tree := t.2.1, m_treeSize := size }, n.2)
    else
      let v := P.vecIn b.m_authLeaf n.2
      if v.2.failed then
        (false, { m_tree := t.2.1, m_treeSize := size, m_authLeaf := v.1,
                  m_authPath := b.m_authPath }, v.2)
      else
        let ps := readPaths P (resize P.pathDefault b.m_authPath v.1.length) v.2
        (ps.1, { m_tree := t.2.1, m_treeSize := size, m_authLeaf := v.1,
                 m_authPath := ps.2.1 }, ps.2.2)

/-- Member `clear()` (lines 115-120). -/
def clear (P : Params Tree Path Dig) (b : MerkleBundle Tree Path Dig) :
    MerkleBundle Tree Path Dig :=
  { m_tree := P.treeClear b.m_tree, m_treeSize := 0, m_authLeaf := [], m_authPath := [] }

/-- Member `empty()` (lines 122-128). -/
def empty (P : Params Tree Path Dig) (b : MerkleBundle Tree Path Dig) : Bool :=
  P.treeEmpty b.m_tree || (0 == b.m_treeSize) || b.m_authLeaf.isEmpty || b.m_authPath.isEmpty

/-- Free function `operator<<` (lines 138-143). -/
def operator_insert (P : Params Tree Path Dig) (os : List Char)
    (a : MerkleBundle Tree Path Dig) : List Char :=
  marshal_out P a os

/-- Free function `operator>>` (lines 145-150): the bundle afterwards and
the stream it returns. -/
def operator_extract (P : Params Tree Path Dig) (s : IStream)
    (a : MerkleBundle Tree Path Dig) : MerkleBundle Tree Path Dig × IStream :=
  let r := marshal_in P a s
  if r.1 = false then (clear P r.2.1, r.2.2) else (r.2.1, r.2.2)

end MerkleBundle

/-! ## Contract of the tree engine -/

/-- Modelled from the spec: `TREE::updatePath` is declared in
`MerkleTree.hpp`, which is not part of the sources at hand.  The spec has
the path computation of the tree produce the path of the leaf being inserted
(section 4.1) and has the two retained sequences keep one length at all
times (section 3, invariant 2): the call adds no record to the vector it is
handed and removes none.  `cleanup` relies on this when it reads
`m_authPath[i]` for every index `i` of `m_authLeaf`. -/
def KeepsPathCount {Tree Path Dig : Type} (P : Params Tree Path Dig) : Prop :=
  ∀ (t : Tree) (cm : Dig) (ps : List Path), (P.updatePath t cm ps).2.length = ps.length

/-- Modelled from the spec: `TREE::updateSiblings` is declared in
`MerkleTree.hpp`, which is not part of the sources at hand.  The spec has
the commit update the sibling cache and the insertion cursor of the tree
(section 4.1) and has `rootHash()` return the root hash of the most recently
computed path (section 4.3): the commit leaves the root hash of the tree's
path what `updatePath` made it. -/
def CommitKeepsRoot {Tree Path Dig : Type} (P : Params Tree Path Dig) : Prop :=
  ∀ (t : Tree) (cm : Dig),
    P.rootHash (P.authPath (P.updateSiblings t cm)) = P.rootHash (P.authPath t)

/-- Modelled from the spec: the tree serialization of `MerkleTree.hpp` (not
part of the sources at hand) restores the tree `t` it has written, whatever
the tree read into held before and whatever follows in the stream. -/
def TreeRoundTrip {Tree Path Dig : Type} (P : Params Tree Path Dig) (t : Tree) : Prop :=
  ∀ (old : Tree) (rest : List Char),
    P.treeIn old { buf := P.treeOut t ++ rest, failed := false }
      = (true, t, { buf := rest, failed := false })

/-- Modelled from the spec: the stream operators of `COUNT` (a template
parameter) read back the counter value `n` that was written, stopping at the
line break that `marshal_out` writes after it. -/
def CountRoundTrip {Tree Path Dig : Type} (P : Params Tree Path Dig) (n : Nat) : Prop :=
  ∀ (old : Nat) (rest : List Char),
    P.countIn old { buf := P.countOut n ++ '\n' :: rest, failed := false }
      = (n, { buf := '\n' :: rest, failed := false })

/-- Modelled from the spec: the digest-vector operators of `DSL_utility.hpp`
(not part of the sources at hand) read back the vector `v` that was written;
the extraction starts at the line break that `marshal_out` wrote before the
vector. -/
def VecRoundTrip {Tree Path Dig : Type} (P : Params Tree Path Dig) (v : List Dig) : Prop :=
  ∀ (old : List Dig) (rest : List Char),
    P.vecIn old { buf := '\n' :: (P.vecOut v ++ rest), failed := false }
      = (v, { buf := rest, failed := false })

/-- Modelled from the spec: the path serialization of `MerkleAuthPath.hpp`
(not part of the sources at hand) restores the record `p` it has written. -/
def PathRoundTrip {Tree Path Dig : Type} (P : Params Tree Path Dig) (p : Path) : Prop :=
  ∀ (old : Path) (rest : List Char),
    P.pathIn old { buf := P.pathOut p ++ rest, failed := false }
      = (true, p, { buf := rest, failed := false })

/-! ## Call sequences and predicates used in the statements -/

namespace MerkleBundle

variable {Tree Path Dig : Type}

/-- The two retained sequences have one length. -/
def Inv (b : MerkleBundle Tree Path Dig) : Prop :=
  b.m_authLeaf.length = b.m_authPath.length

instance (b : MerkleBundle Tree Path Dig) : Decidable (Inv b) := by
  unfold Inv; infer_instance

/-- A call of one of the two mutators that build up a bundle. -/
inductive Call (Dig : Type) where
  | addLeaf (cm : Dig) (keepPath : Bool)
  | cleanup (func : Dig → Bool)

/-- Runs one call. -/
def step (P : Params Tree Path Dig) (b : MerkleBundle Tree Path Dig) :
    Call Dig → Option (MerkleBundle Tree Path Dig)
  | Call.addLeaf cm keepPath => some (addLeaf P b cm keepPath).2
  | Call.cleanup func => cleanup b func

/-- Runs a sequence of calls from left to right. -/
def run (P : Params Tree Path Dig) :
    MerkleBundle Tree Path Dig → List (Call Dig) → Option (MerkleBundle Tree Path Dig)
  | b, [] => some b
  | b, c :: cs =>
    match step P b c with
    | none => none
    | some b1 => run P b1 cs

/-- The bundle `b` is what the calls `cs` make of a freshly constructed
bundle (either constructor). -/
def ReachableBy (P : Params Tree Path Dig) (cs : List (Call Dig))
    (b : MerkleBundle Tree Path Dig) : Prop :=
  run P (construct0 P) cs = some b ∨ ∃ depth, run P (construct P depth) cs = some b

/-- The results (returned index, bundle afterwards) of a sequence of
`addLeaf` calls, one entry per call. -/
def addLeafTrace (P : Params Tree Path Dig) :
    MerkleBundle Tree Path Dig → List (Dig × Bool) → List (Nat × MerkleBundle Tree Path Dig)
  | _, [] => []
  | b, x :: xs =>
    (addLeaf P b x.1 x.2) :: addLeafTrace P (addLeaf P b x.1 x.2).2 xs

/-- The bundle after a sequence of `addLeaf` calls. -/
def addLeaves (P : Params Tree Path Dig) :
    MerkleBundle Tree Path Dig → List (Dig × Bool) → MerkleBundle Tree Path Dig
  | b, [] => b
  | b, x :: xs => addLeaves P (addLeaf P b x.1 x.2).2 xs

/-- Some parse step of `marshal_in` fails: the tree, the counter, the leaf
sequence or one of the path records (steps in the order of lines 104-110,
each on the stream its predecessor left). -/
def ParseFails (P : Params Tree Path Dig) (b : MerkleBundle Tree Path Dig) (s : IStream) :
    Prop :=
  (P.treeIn b.m_tree s).1 = false ∨
  (P.countIn b.m_treeSize (P.treeIn b.m_tree s).2.2).2.failed = true ∨
  (P.vecIn b.m_authLeaf (P.countIn b.m_treeSize (P.treeIn b.m_tree s).2.2).2).2.failed = true ∨
  (readPaths P
    (resize P.pathDefault b.m_authPath
      (P.vecIn b.m_authLeaf (P.countIn b.m_treeSize (P.treeIn b.m_tree s).2.2).2).1.length)
    (P.vecIn b.m_authLeaf (P.countIn b.m_treeSize (P.treeIn b.m_tree s).2.2).2).2).1 = false

instance (P : Params Tree Path Dig) (b : MerkleBundle Tree Path Dig) (s : IStream) :
    Decidable (ParseFails P b s) := by
  unfold ParseFails; infer_instance

/-- The parse of `marshal_in` fails in the leaf-sequence step: tree and
counter were read, `is >> m_authLeaf` left the stream failed. -/
def LeafStepFails (P : Params Tree Path Dig) (b : MerkleBundle Tree Path Dig) (s : IStream) :
    Prop :=
  (P.treeIn b.m_tree s).1 = true ∧
  (P.countIn b.m_treeSize (P.treeIn b.m_tree s).2.2).2.failed = false ∧
  (P.vecIn b.m_authLeaf (P.countIn b.m_treeSize (P.treeIn b.m_tree s).2.2).2).2.failed = true

instance (P : Params Tree Path Dig) (b : MerkleBundle Tree Path Dig) (s : IStream) :
    Decidable (LeafStepFails P b s) := by
  unfold LeafStepFails; infer_instance

end MerkleBundle

/-! ## Further notions used in the statements -/

namespace MerkleBundle

variable {Tree Path Dig : Type}

/-- The tree after a sequence of insertions.  Each entry is a leaf together
with the vector of retained paths that `addLeaf` hands to `updatePath`
(line 54); the `updateSiblings` of line 63 follows. -/
def growTree (P : Params Tree Path Dig) : Tree → List (Dig × List Path) → Tree
  | t, [] => t
  | t, x :: xs => growTree P (P.updateSiblings (P.updatePath t x.1 x.2).1 x.1) xs

/-- The results of the `marshal_in` calls that the loop of lines 108-110
makes on the path records, in order; the loop ends after the first call
that returns `false`. -/
def pathSteps (P : Params Tree Path Dig) : List Path → IStream → List (Bool × Path × IStream)
  | [], _ => []
  | r :: rest, s =>
    if (P.pathIn r s).1 then P.pathIn r s :: pathSteps P rest (P.pathIn r s).2.2
    else [P.pathIn r s]

/-- The result of `is >> m_authLeaf` in `marshal_in` (line 104): the vector
and the stream it leaves, on the stream left by the tree and counter steps. -/
def leafStage (P : Params Tree Path Dig) (b : MerkleBundle Tree Path Dig) (s : IStream) :
    List Dig × IStream :=
  P.vecIn b.m_authLeaf (P.countIn b.m_treeSize (P.treeIn b.m_tree s).2.2).2

/-- The `marshal_in` calls on path records that `marshal_in` of the bundle
makes (lines 107-110): `m_authPath` is resized to the length of the parsed
leaf vector, then the loop runs on the stream left by the leaf step. -/
def pathStage (P : Params Tree Path Dig) (b : MerkleBundle Tree Path Dig) (s : IStream) :
    List (Bool × Path × IStream) :=
  pathSteps P (resize P.pathDefault b.m_authPath (leafStage P b s).1.length)
    (leafStage P b s).2

/-- The leaves that a call sequence inserts with `keepPath = true`, in the
order of the calls. -/
def retainedInserts : List (Call Dig) → List Dig
  | [] => []
  | Call.addLeaf cm true :: cs => cm :: retainedInserts cs
  | Call.addLeaf _ false :: cs => retainedInserts cs
  | Call.cleanup _ :: cs => retainedInserts cs

/-- The number of `addLeaf` calls of a call sequence. -/
def insertCount : List (Call Dig) → Nat
  | [] => 0
  | Call.addLeaf _ _ :: cs => insertCount cs + 1
  | Call.cleanup _ :: cs => insertCount cs

end MerkleBundle

/-- Modelled from the spec: `TREE::clear` and the constructor `TREE(depth)`
are declared in `MerkleTree.hpp`, which is not part of the sources at hand.
The spec has `clear()` reset the tree to its initial construction state
(section 4.3), so that a cleared bundle equals one freshly constructed with
the same depth (section 8): clearing a tree grown from `TREE(depth)` by
insertions gives `TREE(depth)` again. -/
def ClearRestores {Tree Path Dig : Type} (P : Params Tree Path Dig) : Prop :=
  ∀ (depth : Nat) (steps : List (Dig × List Path)),
    P.treeClear (MerkleBundle.growTree P (P.treeNew depth) steps) = P.treeNew depth

/-- Modelled from the spec: `TREE::isFull` is declared in `MerkleTree.hpp`,
which is not part of the sources at hand.  The spec gives the tree the
capacity of `2^depth` leaves and has `isFull` become true once the capacity
is reached (section 3): up to the capacity, a tree grown from `TREE(depth)`
is full exactly when `2^depth` leaves have been inserted. -/
def FullAtCapacity {Tree Path Dig : Type} (P : Params Tree Path Dig) : Prop :=
  ∀ (depth : Nat) (steps : List (Dig × List Path)), steps.length ≤ 2 ^ depth →
    (P.isFull (MerkleBundle.growTree P (P.treeNew depth) steps) = true
      ↔ steps.length = 2 ^ depth)

/-! ## A concrete instantiation of the template parameters

Digests are natural numbers, the tree keeps its depth, the number of
committed leaves and its current path; a path record carries a root hash and
a leaf position.  As the tree grows, `updatePath` refreshes the root hash of
the retained records it is handed.  Text format: one character per number
(`'0'` stands for 0), the counter in decimal (`fxParams`) or as one
character (`fxParams8`). -/

namespace Fixture

/-- Path record of the fixture. -/
structure FxPath where
  root : Nat
  pos : Nat
deriving DecidableEq, Repr

/-- Tree of the fixture. -/
structure FxTree where
  depth : Nat
  count : Nat
  cur : FxPath
deriving DecidableEq, Repr

/-- Two-to-one compression of the fixture. -/
def fxMix (a b : Nat) : Nat := (7 * a + b + 1) % 64

/-- Writes one number as one character. -/
def fxPut (n : Nat) : Char := Char.ofNat (n + 48)

/-- Reads one number; sets the fail state at the end of the input or on a
character below `'0'`. -/
def fxGet (s : IStream) : Option Nat × IStream :=
  if s.failed then (none, s)
  else
    match s.buf with
    | [] => (none, { buf := [], failed := true })
    | c :: r =>
      if c.toNat < 48 then (none, { buf := c :: r, failed := true })
      else (some (c.toNat - 48), { buf := r, failed := false })

/-- White space of the classic locale: the blank and the characters 9 to 13. -/
def fxSpace (c : Char) : Bool :=
  c == ' ' || (decide (9 ≤ c.toNat) && decide (c.toNat ≤ 13))

/-- Skips leading white space, as formatted extraction does. -/
def fxSkip (s : IStream) : IStream :=
  if s.failed then s else { buf := s.buf.dropWhile fxSpace, failed := false }

/-- Path extraction of the fixture: root, then position. -/
def fxPathIn (old : FxPath) (s : IStream) : Bool × FxPath × IStream :=
  match fxGet s with
  | (none, s1) => (false, old, s1)
  | (some r, s1) =>
    match fxGet s1 with
    | (none, s2) => (false, { old with root := r }, s2)
    | (some p, s2) => (true, { root := r, pos := p }, s2)

/-- Tree extraction of the fixture: depth, count, then the current path. -/
def fxTreeIn (old : FxTree) (s : IStream) : Bool × FxTree × IStream :=
  match fxGet s with
  | (none, s1) => (false, old, s1)
  | (some d, s1) =>
    match fxGet s1 with
    | (none, s2) => (false, { old with depth := d }, s2)
    | (some c, s2) =>
      let got := fxPathIn old.cur s2
      (got.1, { depth := d, count := c, cur := got.2.1 }, got.2.2)

/-- Decimal extraction `is >> x` into an unsigned counter of `w` bits.  Leading
white space is skipped; at the end of the input the extraction fails and the
counter keeps its value.  An optional sign is read, then the digits: without
a digit the counter becomes 0 and the extraction fails; a value that does
not fit makes it the largest value and the extraction fails; after a minus
sign the value is negated modulo `2^w`. -/
def fxCountIn (w : Nat) (old : Nat) (s : IStream) : Nat × IStream :=
  if s.failed then (old, s)
  else
    match s.buf.dropWhile fxSpace with
    | [] => (old, { buf := [], failed := true })
    | c :: t =>
      let body := if c == '-' || c == '+' then t else c :: t
      let ds := body.takeWhile Char.isDigit
      let rest := body.dropWhile Char.isDigit
      if ds.isEmpty then (0, { buf := rest, failed := true })
      else
        let v := ds.foldl (fun a d => 10 * a + (d.toNat - 48)) 0
        if v < 2 ^ w then
          ((if c == '-' then (2 ^ w - v) % 2 ^ w else v), { buf := rest, failed := false })
        else (2 ^ w - 1, { buf := rest, failed := true })

/-- Character extraction `is >> x` into a counter of character type
(`unsigned char`): leading white space is skipped, then one character is
read and its code becomes the value; at the end of the input the extraction
fails and the counter keeps its value. -/
def fxCharIn (old : Nat) (s : IStream) : Nat × IStream :=
  if s.failed then (old, s)
  else
    match s.buf.dropWhile fxSpace with
    | [] => (old, { buf := [], failed := true })
    | c :: t => (c.toNat, { buf := t, failed := false })

/-- Reads `n` digests; at the first failure the remaining slots keep the
value 0 that the preceding resize gave them. -/
def fxElems : Nat → IStream → List Nat × IStream
  | 0, s => ([], s)
  | n + 1, s =>
    match fxGet s with
    | (none, s1) => (List.replicate (n + 1) 0, s1)
    | (some x, s1) =>
      let more := fxElems n s1
      (x :: more.1, more.2)

/-- Digest-vector extraction of the fixture: the length, a resize to that
length, then the elements. -/
def fxVecIn (old : List Nat) (s : IStream) : List Nat × IStream :=
  match fxGet (fxSkip s) with
  | (none, s1) => (old, s1)
  | (some n, s1) => fxElems n s1

/-- The instantiation: `COUNT` is a 16-bit unsigned integer. -/
def fxParams : Params FxTree FxPath Nat where
  treeDefault := { depth := 0, count := 0, cur := { root := 0, pos := 0 } }
  treeNew := fun d => { depth := d, count := 0, cur := { root := 0, pos := 0 } }
  isFull := fun t => decide (2 ^ t.depth ≤ t.count)
  authPath := fun t => t.cur
  updatePath := fun t cm ps =>
    ({ t with cur := { root := fxMix t.cur.root cm, pos := t.count } },
      ps.map (fun p => { p with root := fxMix t.cur.root cm }))
  updateSiblings := fun t _ => { t with count := t.count + 1 }
  treeClear := fun t => { depth := t.depth, count := 0, cur := { root := 0, pos := 0 } }
  treeEmpty := fun t => t.count == 0
  treeOut := fun t => [fxPut t.depth, fxPut t.count, fxPut t.cur.root, fxPut t.cur.pos]
  treeIn := fxTreeIn
  rootHash := fun p => p.root
  pathDefault := { root := 0, pos := 0 }
  pathOut := fun p => [fxPut p.root, fxPut p.pos]
  pathIn := fxPathIn
  countBits := 16
  countOut := fun n => Nat.toDigits 10 n
  countIn := fxCountIn 16
  vecOut := fun v => fxPut v.length :: v.map fxPut
  vecIn := fxVecIn

/-- A depth-2 bundle after `addLeaf(5, true)`. -/
def fxOne : MerkleBundle FxTree FxPath Nat :=
  (MerkleBundle.addLeaf fxParams (MerkleBundle.construct fxParams 2) 5 true).2

/-- A depth-2 bundle after `addLeaf(5, true)` and `addLeaf(9, false)`. -/
def fxBundle : MerkleBundle FxTree FxPath Nat :=
  (MerkleBundle.addLeaf fxParams fxOne 9 false).2

/-- The instantiation with a `COUNT` of character type (`unsigned char`,
8 bits): `os << m_treeSize` writes the character with that code and
`is >> m_treeSize` reads one character after skipping white space.  Tree,
path and digest vector are those of `fxParams`. -/
def fxParams8 : Params FxTree FxPath Nat :=
  { fxParams with
    countBits := 8,
    countOut := fun n => [Char.ofNat n],
    countIn := fxCharIn }

/-- The calls that build `fxTen`: one retaining and nine further insertions. -/
def fxTenCalls : List (MerkleBundle.Call Nat) :=
  MerkleBundle.Call.addLeaf 5 true :: List.replicate 9 (MerkleBundle.Call.addLeaf 1 false)

/-- A depth-4 bundle with a character-typed counter after ten insertions,
the first of them retained. -/
def fxTen : MerkleBundle FxTree FxPath Nat :=
  MerkleBundle.addLeaves fxParams8 (MerkleBundle.construct fxParams8 4)
    ((5, true) :: List.replicate 9 (1, false))

/-- The bundle `fxOne` with both retained sequences emptied. -/
def fxOnePruned : MerkleBundle FxTree FxPath Nat :=
  { fxOne with m_authLeaf := [], m_authPath := [] }

/-- The bundle `fxBundle` with both retained sequences emptied. -/
def fxPruned : MerkleBundle FxTree FxPath Nat :=
  { fxBundle with m_authLeaf := [], m_authPath := [] }

/-- A depth-2 bundle after three retaining insertions. -/
def fxThree : MerkleBundle FxTree FxPath Nat :=
  MerkleBundle.addLeaves fxParams (MerkleBundle.construct fxParams 2)
    [(5, true), (9, true), (4, true)]

/-- The bundle `fxThree` without its second retained pair. -/
def fxThreeKept : MerkleBundle FxTree FxPath Nat :=
  { fxThree with
    m_authLeaf := [5, 4],
    m_authPath := [{ root := 49, pos := 0 }, { root := 49, pos := 2 }] }

end Fixture

/-! ## Facts about the instantiation -/

namespace Fixture

theorem fxParams_keepsPathCount : KeepsPathCount fxParams := by
  intro t cm ps
  simp [fxParams]

theorem fxParams_commitKeepsRoot : CommitKeepsRoot fxParams :=
  fun _ _ => rfl

theorem fxParams8_keepsPathCount : KeepsPathCount fxParams8 := by
  intro t cm ps
  simp [fxParams8, fxParams]

theorem fx_growTree (steps : List (Nat × List FxPath)) :
    ∀ (t : FxTree),
      (MerkleBundle.growTree fxParams t steps).depth = t.depth ∧
      (MerkleBundle.growTree fxParams t steps).count = t.count + steps.length := by
  induction steps with
  | nil => intro t; simp [MerkleBundle.growTree]
  | cons x xs ih =>
    intro t
    have h := ih (fxParams.updateSiblings (fxParams.updatePath t x.1 x.2).1 x.1)
    simp only [MerkleBundle.growTree, List.length_cons]
    refine ⟨h.1.trans rfl, h.2.trans ?_⟩
    simp only [fxParams]
    omega

theorem fxParams_clearRestores : ClearRestores fxParams := by
  intro depth steps
  have h := (fx_growTree steps (fxParams.treeNew depth)).1
  simp only [fxParams] at h ⊢
  rw [h]

theorem fxParams_fullAtCapacity : FullAtCapacity fxParams := by
  intro depth steps _
  have h := fx_growTree steps (fxParams.treeNew depth)
  have hd : (fxParams.treeNew depth).depth = depth := rfl
  have hc : (fxParams.treeNew depth).count = 0 := rfl
  rw [hd, hc, Nat.zero_add] at h
  have hfull : fxParams.isFull (MerkleBundle.growTree fxParams (fxParams.treeNew depth) steps)
      = decide (2 ^ (MerkleBundle.growTree fxParams (fxParams.treeNew depth) steps).depth
          ≤ (MerkleBundle.growTree fxParams (fxParams.treeNew depth) steps).count) := rfl
  rw [hfull, h.1, h.2, decide_eq_true_iff]
  omega

end Fixture

/-! ## Insertion -/

namespace MerkleBundle

variable {Tree Path Dig : Type}

theorem addLeaf_keep_aux (P : Params Tree Path Dig) (hcount : KeepsPathCount P)
    (b : MerkleBundle Tree Path Dig) (cm : Dig) :
    (addLeaf P b cm true).1 = b.m_authPath.length ∧
    (addLeaf P b cm true).2.m_authLeaf = b.m_authLeaf ++ [cm] ∧
    (addLeaf P b cm true).2.m_authPath.length = b.m_authPath.length + 1 := by
  have h := hcount b.m_tree cm b.m_authPath
  refine ⟨?_, ?_, ?_⟩
  · simpa [addLeaf] using h
  · simp [addLeaf]
  · simp [addLeaf, h]

/-- C1: `addLeaf(cm, true)` returns the length the retained sequences had
before the call, whatever the counter is; afterwards the retained leaves are
the old ones with `cm` appended and the retained paths are one record
longer.  The index is read from `m_authPath.size()`, so it is the length of
the retained leaves as well whenever the two sequences had one length. -/
theorem addLeaf_keep_index (P : Params Tree Path Dig) (b : MerkleBundle Tree Path Dig)
    (cm : Dig) (hcount : KeepsPathCount P) :
    (addLeaf P b cm true).1 = b.m_authPath.length ∧
    (b.m_authLeaf.length = b.m_authPath.length →
      (addLeaf P b cm true).1 = b.m_authLeaf.length) ∧
    (addLeaf P b cm true).2.m_authLeaf = b.m_authLeaf ++ [cm] ∧
    (addLeaf P b cm true).2.m_authPath.length = b.m_authPath.length + 1 := by
  have h := hcount b.m_tree cm b.m_authPath
  refine ⟨?_, ?_, ?_, ?_⟩
  · simpa [addLeaf] using h
  · intro heq
    simpa [addLeaf, heq] using h
  · simp [addLeaf]
  · simp [addLeaf, h]

theorem addLeaf_keep_index_witness :
    KeepsPathCount Fixture.fxParams ∧
    (addLeaf Fixture.fxParams Fixture.fxBundle 3 true).1 = 1 ∧
    (addLeaf Fixture.fxParams Fixture.fxBundle 3 true).2.m_authLeaf = [5, 3] ∧
    (addLeaf Fixture.fxParams Fixture.fxBundle 3 true).2.m_authPath.length = 2 := by
  have h := addLeaf_keep_index Fixture.fxParams Fixture.fxBundle 3
    Fixture.fxParams_keepsPathCount
  exact ⟨Fixture.fxParams_keepsPathCount, h.1, h.2.2.1, h.2.2.2⟩

/-- C2, as stated, fails on the instantiation: the bundle holds one retained
path with root hash 6; `addLeaf(9, false)` hands the retained vector to
`updatePath`, and the record comes back with root hash 52. -/
theorem addLeaf_nokeep_paths_counterexample :
    Fixture.fxOne.m_authPath = [{ root := 6, pos := 0 }] ∧
    (addLeaf Fixture.fxParams Fixture.fxOne 9 false).2.m_authPath = [{ root := 52, pos := 0 }] ∧
    ¬ ((addLeaf Fixture.fxParams Fixture.fxOne 9 false).1 = SIZE_MAX ∧
       (addLeaf Fixture.fxParams Fixture.fxOne 9 false).2.m_authLeaf = Fixture.fxOne.m_authLeaf ∧
       (addLeaf Fixture.fxParams Fixture.fxOne 9 false).2.m_authPath
         = Fixture.fxOne.m_authPath) := by
  decide

/-- C2, amended: `addLeaf(cm, false)` returns the sentinel and leaves the
retained leaves unchanged, element for element; it appends nothing to the
retained paths, which afterwards are exactly the vector as the
`updatePath(cm, m_authPath)` call of line 54 left it: the same number of
records, each possibly rewritten by that call. -/
theorem addLeaf_nokeep_frame (P : Params Tree Path Dig) (b : MerkleBundle Tree Path Dig)
    (cm : Dig) (hcount : KeepsPathCount P) :
    (addLeaf P b cm false).1 = SIZE_MAX ∧
    (addLeaf P b cm false).2.m_authLeaf = b.m_authLeaf ∧
    (addLeaf P b cm false).2.m_authPath = (P.updatePath b.m_tree cm b.m_authPath).2 ∧
    (addLeaf P b cm false).2.m_authPath.length = b.m_authPath.length := by
  have h := hcount b.m_tree cm b.m_authPath
  refine ⟨?_, ?_, ?_, ?_⟩
  · simp [addLeaf]
  · simp [addLeaf]
  · simp [addLeaf]
  · simpa [addLeaf] using h

theorem addLeaf_nokeep_frame_witness :
    KeepsPathCount Fixture.fxParams ∧
    (addLeaf Fixture.fxParams Fixture.fxOne 9 false).1 = 18446744073709551615 ∧
    (addLeaf Fixture.fxParams Fixture.fxOne 9 false).2.m_authLeaf = [5] ∧
    (addLeaf Fixture.fxParams Fixture.fxOne 9 false).2.m_authPath.length = 1 := by
  have h := addLeaf_nokeep_frame Fixture.fxParams Fixture.fxOne 9
    Fixture.fxParams_keepsPathCount
  exact ⟨Fixture.fxParams_keepsPathCount, h.1, h.2.1, h.2.2.2⟩

end MerkleBundle

/-! ## Deserialization failure -/

namespace MerkleBundle

variable {Tree Path Dig : Type}

theorem marshal_in_false_of_parseFails (P : Params Tree Path Dig)
    (b : MerkleBundle Tree Path Dig) (s : IStream) (h : ParseFails P b s) :
    (marshal_in P b s).1 = false := by
  unfold ParseFails at h
  unfold marshal_in
  by_cases h1 : (P.treeIn b.m_tree s).1 = false
  · simp [h1]
  · by_cases h2 : (P.countIn b.m_treeSize (P.treeIn b.m_tree s).2.2).2.failed = true
    · simp [h1, h2]
    · by_cases h3 : (P.vecIn b.m_authLeaf
          (P.countIn b.m_treeSize (P.treeIn b.m_tree s).2.2).2).2.failed = true
      · simp [h1, h2, h3]
      · rcases h with h | h | h | h
        · exact absurd h h1
        · exact absurd h h2
        · exact absurd h h3
        · simp [h1, h2, h3, h]

/-- C3, as stated, fails for `marshal_in`: on an empty (truncated) stream the
tree step fails, `marshal_in` returns `false` and the bundle keeps its
counter 1 and its retained leaf and path; `empty()` is false afterwards. -/
theorem marshal_in_failure_counterexample :
    ParseFails Fixture.fxParams Fixture.fxOne { buf := [], failed := false } ∧
    (marshal_in Fixture.fxParams Fixture.fxOne { buf := [], failed := false }).1 = false ∧
    (marshal_in Fixture.fxParams Fixture.fxOne { buf := [], failed := false }).2.1.m_treeSize = 1 ∧
    (marshal_in Fixture.fxParams Fixture.fxOne { buf := [], failed := false }).2.1.m_authLeaf = [5] ∧
    (marshal_in Fixture.fxParams Fixture.fxOne
      { buf := [], failed := false }).2.1.m_authPath.length = 1 ∧
    empty Fixture.fxParams
      (marshal_in Fixture.fxParams Fixture.fxOne { buf := [], failed := false }).2.1 = false := by
  decide

/-- C3, amended: on a parse failure at any step (tree, counter, leaf
sequence, a path record) `marshal_in` returns `false` to its caller and does
not reset the bundle; `operator>>`, which calls `marshal_in`, then clears
the bundle: the tree is cleared, the counter is 0, both retained sequences
are empty and `empty()` is true, and it returns the stream as `marshal_in`
left it. -/
theorem operator_extract_failure (P : Params Tree Path Dig)
    (b : MerkleBundle Tree Path Dig) (s : IStream) (hfail : ParseFails P b s) :
    (marshal_in P b s).1 = false ∧
    (operator_extract P s b).1 = clear P (marshal_in P b s).2.1 ∧
    (operator_extract P s b).1.m_tree = P.treeClear (marshal_in P b s).2.1.m_tree ∧
    (operator_extract P s b).1.m_treeSize = 0 ∧
    (operator_extract P s b).1.m_authLeaf = [] ∧
    (operator_extract P s b).1.m_authPath = [] ∧
    empty P (operator_extract P s b).1 = true ∧
    (operator_extract P s b).2 = (marshal_in P b s).2.2 := by
  have hf := marshal_in_false_of_parseFails P b s hfail
  have hx : operator_extract P s b = (clear P (marshal_in P b s).2.1, (marshal_in P b s).2.2) := by
    simp [operator_extract, hf]
  rw [hx]
  simp [clear, empty, hf]

theorem operator_extract_failure_witness :
    ParseFails Fixture.fxParams Fixture.fxOne { buf := ['2', '1'], failed := false } ∧
    (marshal_in Fixture.fxParams Fixture.fxOne { buf := ['2', '1'], failed := false }).1 = false ∧
    (operator_extract Fixture.fxParams { buf := ['2', '1'], failed := false }
      Fixture.fxOne).1.m_treeSize = 0 ∧
    (operator_extract Fixture.fxParams { buf := ['2', '1'], failed := false }
      Fixture.fxOne).1.m_authLeaf = [] ∧
    empty Fixture.fxParams (operator_extract Fixture.fxParams
      { buf := ['2', '1'], failed := false } Fixture.fxOne).1 = true := by
  have h := operator_extract_failure Fixture.fxParams Fixture.fxOne
    { buf := ['2', '1'], failed := false } (by decide)
  exact ⟨by decide, h.1, h.2.2.2.1, h.2.2.2.2.1, h.2.2.2.2.2.2.1⟩

end MerkleBundle

/-! ## Invariants along call sequences -/

namespace MerkleBundle

variable {Tree Path Dig : Type}

theorem cleanupLoop_eq (func : Dig → Bool) (pre post : List Path) (rest : List Dig) :
    ∀ (i : Nat) (keepLeaf : List Dig) (keepPath : List Path),
      pre.length = i → rest.length ≤ post.length →
      cleanupLoop func (pre ++ post) rest i keepLeaf keepPath
        = some (keepLeaf ++ rest.filter func,
            keepPath ++ ((rest.zip post).filter (fun x => func x.1)).map Prod.snd) := by
  induction rest generalizing pre post with
  | nil => intro i kl kp _ _; simp [cleanupLoop]
  | cons cm rest ih =>
    intro i kl kp hi hlen
    cases post with
    | nil => simp at hlen
    | cons p post =>
      have hlen2 : rest.length ≤ post.length := by simpa using hlen
      have hget : (pre ++ p :: post)[i]? = some p := by
        rw [List.getElem?_append_right (by omega)]
        simp [hi]
      have hpre : pre ++ p :: post = (pre ++ [p]) ++ post := by simp
      have hi2 : (pre ++ [p]).length = i + 1 := by simp [hi]
      by_cases hf : func cm = true
      · have := ih (pre ++ [p]) post (i + 1) (kl ++ [cm]) (kp ++ [p]) hi2 hlen2
        simp only [cleanupLoop, hf, if_true, hget]
        rw [hpre, this]
        simp [hf]
      · have := ih (pre ++ [p]) post (i + 1) kl kp hi2 hlen2
        simp only [cleanupLoop, hf]
        rw [hpre, this]
        simp [hf]

theorem cleanup_eq (b : MerkleBundle Tree Path Dig) (func : Dig → Bool)
    (h : b.m_authLeaf.length ≤ b.m_authPath.length) :
    cleanup b func = some { b with
      m_authLeaf := b.m_authLeaf.filter func,
      m_authPath := ((b.m_authLeaf.zip b.m_authPath).filter (fun x => func x.1)).map Prod.snd } := by
  have := cleanupLoop_eq func [] b.m_authPath b.m_authLeaf 0 [] [] rfl h
  simp only [List.nil_append] at this
  simp [cleanup, this]

theorem filter_zip_length (func : Dig → Bool) (ls : List Dig) :
    ∀ (ps : List Path),
      (ls.filter func).length
        = (((ls.zip ps).filter (fun x => func x.1)).map Prod.snd).length
        ∨ ps.length < ls.length := by
  induction ls with
  | nil => intro ps; simp
  | cons l ls ih =>
    intro ps
    cases ps with
    | nil => right; simp
    | cons q ps =>
      rcases ih ps with h | h
      · left
        by_cases hf : func l = true
        · simpa [List.filter_cons, hf] using h
        · simpa [List.filter_cons, hf] using h
      · right; simpa using h

theorem inv_cleanup (b b1 : MerkleBundle Tree Path Dig) (func : Dig → Bool)
    (hinv : Inv b) (h : cleanup b func = some b1) : Inv b1 := by
  unfold Inv at hinv
  rw [cleanup_eq b func (le_of_eq hinv)] at h
  cases h
  rcases filter_zip_length func b.m_authLeaf b.m_authPath with h | h
  · exact h
  · omega

theorem inv_addLeaf (P : Params Tree Path Dig) (hcount : KeepsPathCount P)
    (b : MerkleBundle Tree Path Dig) (cm : Dig) (keepPath : Bool) (hinv : Inv b) :
    Inv (addLeaf P b cm keepPath).2 := by
  have h := hcount b.m_tree cm b.m_authPath
  unfold Inv at hinv ⊢
  cases keepPath <;> simp [addLeaf, h, hinv]

/-- What every bundle built by `addLeaf` and `cleanup` calls satisfies. -/
theorem run_good (P : Params Tree Path Dig) (hcount : KeepsPathCount P)
    (cs : List (Call Dig)) :
    ∀ (b b1 : MerkleBundle Tree Path Dig),
      Inv b → b.m_treeSize < 2 ^ P.countBits → run P b cs = some b1 →
      Inv b1 ∧ b1.m_treeSize < 2 ^ P.countBits := by
  induction cs with
  | nil =>
    intro b b1 hinv hlt h
    simp [run] at h
    subst h
    exact ⟨hinv, hlt⟩
  | cons c cs ih =>
    intro b b1 hinv hlt h
    cases c with
    | addLeaf cm keepPath =>
      simp only [run, step] at h
      refine ih _ b1 (inv_addLeaf P hcount b cm keepPath hinv) ?_ h
      simp only [addLeaf]
      exact Nat.mod_lt _ (Nat.pos_pow_of_pos _ (by decide))
    | cleanup func =>
      simp only [run, step] at h
      cases hc : cleanup b func with
      | none => simp [hc] at h
      | some b2 =>
        simp only [hc] at h
        have hsz : b2.m_treeSize = b.m_treeSize := by
          rw [cleanup_eq b func (le_of_eq hinv)] at hc
          cases hc; rfl
        exact ih b2 b1 (inv_cleanup b b2 func hinv hc) (by rw [hsz]; exact hlt) h

/-- Every sequence of `addLeaf` and `cleanup` calls runs to the end on a
bundle whose retained sequences have one length. -/
theorem run_defined (P : Params Tree Path Dig) (hcount : KeepsPathCount P)
    (cs : List (Call Dig)) :
    ∀ (b : MerkleBundle Tree Path Dig), Inv b → ∃ b1, run P b cs = some b1 := by
  induction cs with
  | nil => intro b _; exact ⟨b, rfl⟩
  | cons c cs ih =>
    intro b hinv
    cases c with
    | addLeaf cm keepPath =>
      simpa [run, step] using ih _ (inv_addLeaf P hcount b cm keepPath hinv)
    | cleanup func =>
      have hc := cleanup_eq b func (le_of_eq hinv)
      simpa [run, step, hc] using ih _ (inv_cleanup b _ func hinv hc)

theorem reachable_good (P : Params Tree Path Dig) (hcount : KeepsPathCount P)
    (cs : List (Call Dig)) (b : MerkleBundle Tree Path Dig) (h : ReachableBy P cs b) :
    Inv b ∧ b.m_treeSize < 2 ^ P.countBits := by
  rcases h with h | ⟨d, h⟩
  · exact run_good P hcount cs _ b (by simp [Inv, construct0]) (by simp [construct0]) h
  · exact run_good P hcount cs _ b (by simp [Inv, construct]) (by simp [construct]) h

end MerkleBundle

/-! ## Serialization round trip -/

namespace MerkleBundle

variable {Tree Path Dig : Type}

theorem foldl_pathOut (P : Params Tree Path Dig) (ps : List Path) :
    ∀ (init : List Char),
      ps.foldl (fun o r => o ++ P.pathOut r) init
        = init ++ ps.foldl (fun o r => o ++ P.pathOut r) [] := by
  induction ps with
  | nil => intro init; simp
  | cons p ps ih =>
    intro init
    simp only [List.foldl_cons, List.nil_append]
    rw [ih (init ++ P.pathOut p), ih (P.pathOut p)]
    simp

theorem length_resize (dflt : Path) (ps : List Path) (n : Nat) :
    (resize dflt ps n).length = n := by
  simp only [resize, List.length_append, List.length_take, List.length_replicate]
  omega

theorem readPaths_roundtrip (P : Params Tree Path Dig) (ps : List Path) :
    ∀ (olds : List Path) (rest : List Char),
      olds.length = ps.length → (∀ p ∈ ps, PathRoundTrip P p) →
      readPaths P olds
          { buf := ps.foldl (fun o r => o ++ P.pathOut r) [] ++ rest, failed := false }
        = (true, ps, { buf := rest, failed := false }) := by
  induction ps with
  | nil =>
    intro olds rest hlen _
    have : olds = [] := List.length_eq_zero.mp (by simpa using hlen)
    subst this
    simp [readPaths]
  | cons p ps ih =>
    intro olds rest hlen hrt
    cases olds with
    | nil => simp at hlen
    | cons o olds =>
      have hlen2 : olds.length = ps.length := by simpa using hlen
      have hp : PathRoundTrip P p := hrt p (by simp)
      have hps : ∀ q ∈ ps, PathRoundTrip P q := fun q hq => hrt q (by simp [hq])
      have hbuf : List.foldl (fun o r => o ++ P.pathOut r) [] (p :: ps) ++ rest
          = P.pathOut p ++ (List.foldl (fun o r => o ++ P.pathOut r) [] ps ++ rest) := by
        simp only [List.foldl_cons, List.nil_append]
        rw [foldl_pathOut P ps (P.pathOut p)]
        simp
      rw [hbuf]
      simp only [readPaths, hp o _, ih olds rest hlen2 hps]
      simp

theorem marshal_out_eq (P : Params Tree Path Dig) (b : MerkleBundle Tree Path Dig)
    (rest : List Char) :
    marshal_out P b [] ++ rest
      = P.treeOut b.m_tree ++ (P.countOut b.m_treeSize ++ '\n' ::
          (P.vecOut b.m_authLeaf ++
            (b.m_authPath.foldl (fun o r => o ++ P.pathOut r) [] ++ rest))) := by
  simp only [marshal_out, List.nil_append]
  rw [foldl_pathOut]
  simp

theorem marshal_in_marshal_out (P : Params Tree Path Dig) (b a : MerkleBundle Tree Path Dig)
    (rest : List Char) (hinv : Inv b) (hsize : b.m_treeSize < 2 ^ P.countBits)
    (hT : TreeRoundTrip P b.m_tree) (hC : CountRoundTrip P b.m_treeSize)
    (hV : VecRoundTrip P b.m_authLeaf) (hPth : ∀ p ∈ b.m_authPath, PathRoundTrip P p) :
    marshal_in P a { buf := marshal_out P b [] ++ rest, failed := false }
      = (true, b, { buf := rest, failed := false }) := by
  rw [marshal_out_eq]
  have hres : (resize P.pathDefault a.m_authPath b.m_authLeaf.length).length
      = b.m_authPath.length := by
    rw [length_resize]; exact hinv
  simp only [marshal_in, hT a.m_tree _, hC a.m_treeSize _, hV a.m_authLeaf _,
    readPaths_roundtrip P b.m_authPath _ rest hres hPth, Nat.mod_eq_of_lt hsize]
  simp

/-- C4, as stated, fails when the counter type has character I/O: with an
8-bit `COUNT` the bundle `fxTen` (depth 4, ten insertions, `treeSize` 10) is
reachable, its tree, its digest vector and its path record read their own
output back, and yet `marshal_in` of its `marshal_out` returns `false`.  The
counter 10 is written as the line-break character; the extraction of the
counter skips it together with the line break that follows and takes the
first character of the leaf vector (code 49) for the counter. -/
theorem marshal_roundtrip_counterexample :
    ReachableBy Fixture.fxParams8 Fixture.fxTenCalls Fixture.fxTen ∧
    KeepsPathCount Fixture.fxParams8 ∧
    TreeRoundTrip Fixture.fxParams8 Fixture.fxTen.m_tree ∧
    VecRoundTrip Fixture.fxParams8 Fixture.fxTen.m_authLeaf ∧
    (∀ p ∈ Fixture.fxTen.m_authPath, PathRoundTrip Fixture.fxParams8 p) ∧
    treeSize Fixture.fxTen = 10 ∧
    marshal_out Fixture.fxParams8 Fixture.fxTen []
      = ['4', ':', '\\', '9', '\n', '\n', '1', '5', '\\', '0'] ∧
    (marshal_in Fixture.fxParams8 (construct0 Fixture.fxParams8)
      { buf := marshal_out Fixture.fxParams8 Fixture.fxTen [], failed := false }).1 = false ∧
    (marshal_in Fixture.fxParams8 (construct0 Fixture.fxParams8)
      { buf := marshal_out Fixture.fxParams8 Fixture.fxTen [], failed := false }).2.1.m_treeSize
      = 49 := by
  have hPth : ∀ p ∈ Fixture.fxTen.m_authPath, PathRoundTrip Fixture.fxParams8 p := by
    intro p hp
    have hp2 : p = { root := 44, pos := 0 } := by
      have : Fixture.fxTen.m_authPath = [{ root := 44, pos := 0 }] := by decide
      rw [this] at hp
      simpa using hp
    subst hp2
    exact fun _ _ => rfl
  exact ⟨Or.inr ⟨4, rfl⟩, Fixture.fxParams8_keepsPathCount, fun _ _ => rfl, fun _ _ => rfl,
    hPth, by decide, by decide, by decide, by decide⟩

/-- C4, amended: a bundle built from a constructor by `addLeaf` and
`cleanup` calls is read back from its own serialization: `marshal_in`
returns `true` and yields the same counter, root hash, retained leaves and
retained paths (the same bundle), and so does `operator>>` after
`operator<<`, given that the tree, the digest vector (read from the line
break on) and the path records read their own output back and that the
stream operators of `COUNT` read the written counter value back, stopping
at the line break after it.  Whatever the target bundle `a` held before is
replaced and the characters `rest` after the bundle stay in the stream. -/
theorem marshal_roundtrip (P : Params Tree Path Dig) (cs : List (Call Dig))
    (b a : MerkleBundle Tree Path Dig) (rest : List Char)
    (hreach : ReachableBy P cs b) (hcount : KeepsPathCount P)
    (hT : TreeRoundTrip P b.m_tree) (hC : CountRoundTrip P b.m_treeSize)
    (hV : VecRoundTrip P b.m_authLeaf) (hPth : ∀ p ∈ b.m_authPath, PathRoundTrip P p) :
    (marshal_in P a { buf := marshal_out P b [] ++ rest, failed := false }).1 = true ∧
    treeSize (marshal_in P a { buf := marshal_out P b [] ++ rest, failed := false }).2.1
      = treeSize b ∧
    rootHash P (marshal_in P a { buf := marshal_out P b [] ++ rest, failed := false }).2.1
      = rootHash P b ∧
    authLeaf (marshal_in P a { buf := marshal_out P b [] ++ rest, failed := false }).2.1
      = authLeaf b ∧
    authPath (marshal_in P a { buf := marshal_out P b [] ++ rest, failed := false }).2.1
      = authPath b ∧
    marshal_in P a { buf := marshal_out P b [] ++ rest, failed := false }
      = (true, b, { buf := rest, failed := false }) ∧
    operator_extract P { buf := operator_insert P [] b ++ rest, failed := false } a
      = (b, { buf := rest, failed := false }) := by
  have hgood := reachable_good P hcount cs b hreach
  have h := marshal_in_marshal_out P b a rest hgood.1 hgood.2 hT hC hV hPth
  refine ⟨?_, ?_, ?_, ?_, ?_, h, ?_⟩
  · rw [h]
  · rw [h]
  · rw [h]
  · rw [h]
  · rw [h]
  · simp [operator_extract, operator_insert, h]

theorem marshal_roundtrip_witness :
    ReachableBy Fixture.fxParams [Call.addLeaf 5 true, Call.addLeaf 9 false] Fixture.fxBundle ∧
    KeepsPathCount Fixture.fxParams ∧
    TreeRoundTrip Fixture.fxParams Fixture.fxBundle.m_tree ∧
    CountRoundTrip Fixture.fxParams Fixture.fxBundle.m_treeSize ∧
    VecRoundTrip Fixture.fxParams Fixture.fxBundle.m_authLeaf ∧
    (∀ p ∈ Fixture.fxBundle.m_authPath, PathRoundTrip Fixture.fxParams p) ∧
    marshal_out Fixture.fxParams Fixture.fxBundle [] = "22d12\n15d0".toList ∧
    marshal_in Fixture.fxParams Fixture.fxOne
        { buf := marshal_out Fixture.fxParams Fixture.fxBundle [] ++ ['x'], failed := false }
      = (true, Fixture.fxBundle, { buf := ['x'], failed := false }) := by
  have hreach : ReachableBy Fixture.fxParams [Call.addLeaf 5 true, Call.addLeaf 9 false]
      Fixture.fxBundle := Or.inr ⟨2, rfl⟩
  have hT : TreeRoundTrip Fixture.fxParams Fixture.fxBundle.m_tree := fun _ _ => rfl
  have hC : CountRoundTrip Fixture.fxParams Fixture.fxBundle.m_treeSize := fun _ _ => rfl
  have hV : VecRoundTrip Fixture.fxParams Fixture.fxBundle.m_authLeaf := fun _ _ => rfl
  have hPth : ∀ p ∈ Fixture.fxBundle.m_authPath, PathRoundTrip Fixture.fxParams p := by
    intro p hp
    have hp2 : p = { root := 52, pos := 0 } := by
      have : Fixture.fxBundle.m_authPath = [{ root := 52, pos := 0 }] := by decide
      rw [this] at hp
      simpa using hp
    subst hp2
    exact fun _ _ => rfl
  exact ⟨hreach, Fixture.fxParams_keepsPathCount, hT, hC, hV, hPth, by decide,
    (marshal_roundtrip Fixture.fxParams _ Fixture.fxBundle Fixture.fxOne ['x'] hreach
      Fixture.fxParams_keepsPathCount hT hC hV hPth).2.2.2.2.2.1⟩

end MerkleBundle

/-! ## The length invariant of the retained sequences -/

namespace MerkleBundle

variable {Tree Path Dig : Type}

theorem readPaths_length (P : Params Tree Path Dig) (ps : List Path) :
    ∀ (s : IStream), (readPaths P ps s).2.1.length = ps.length := by
  induction ps with
  | nil => intro s; simp [readPaths]
  | cons r rest ih =>
    intro s
    by_cases h : (P.pathIn r s).1 = true
    · simp [readPaths, h, ih]
    · simp [readPaths, h]

theorem inv_marshal_in_true (P : Params Tree Path Dig) (b : MerkleBundle Tree Path Dig)
    (s : IStream) (h : (marshal_in P b s).1 = true) : Inv (marshal_in P b s).2.1 := by
  unfold marshal_in at h ⊢
  by_cases h1 : (P.treeIn b.m_tree s).1 = false
  · simp [h1] at h
  · by_cases h2 : (P.countIn b.m_treeSize (P.treeIn b.m_tree s).2.2).2.failed = true
    · simp [h1, h2] at h
    · by_cases h3 : (P.vecIn b.m_authLeaf
          (P.countIn b.m_treeSize (P.treeIn b.m_tree s).2.2).2).2.failed = true
      · simp [h1, h2, h3] at h
      · simp [h1, h2, h3, Inv, readPaths_length, length_resize]

theorem inv_marshal_in_other (P : Params Tree Path Dig) (b : MerkleBundle Tree Path Dig)
    (s : IStream) (hinv : Inv b) (h : ¬ LeafStepFails P b s) : Inv (marshal_in P b s).2.1 := by
  unfold LeafStepFails at h
  unfold Inv at hinv
  unfold marshal_in
  by_cases h1 : (P.treeIn b.m_tree s).1 = false
  · simpa [h1, Inv] using hinv
  · by_cases h2 : (P.countIn b.m_treeSize (P.treeIn b.m_tree s).2.2).2.failed = true
    · simpa [h1, h2, Inv] using hinv
    · by_cases h3 : (P.vecIn b.m_authLeaf
          (P.countIn b.m_treeSize (P.treeIn b.m_tree s).2.2).2).2.failed = true
      · exact absurd ⟨by simpa using h1, by simpa using h2, h3⟩ h
      · simp [h1, h2, h3, Inv, readPaths_length, length_resize]

theorem marshal_in_leafStep (P : Params Tree Path Dig) (b : MerkleBundle Tree Path Dig)
    (s : IStream) (h : LeafStepFails P b s) :
    (marshal_in P b s).1 = false ∧
    (marshal_in P b s).2.1.m_authLeaf
      = (P.vecIn b.m_authLeaf (P.countIn b.m_treeSize (P.treeIn b.m_tree s).2.2).2).1 ∧
    (marshal_in P b s).2.1.m_authPath = b.m_authPath := by
  obtain ⟨h1, h2, h3⟩ := h
  simp [marshal_in, h1, h2, h3]

theorem inv_operator_extract (P : Params Tree Path Dig) (b : MerkleBundle Tree Path Dig)
    (s : IStream) : Inv (operator_extract P s b).1 := by
  by_cases h : (marshal_in P b s).1 = true
  · have := inv_marshal_in_true P b s h
    simpa [operator_extract, h] using this
  · simp [operator_extract, h, Inv, clear]

/-- C5, as stated, fails for a `marshal_in` that fails in the leaf-sequence
step: the stream announces two leaves and holds one.  The extraction leaves
`m_authLeaf` with two entries, `marshal_in` returns `false` at line 105,
before the resize of line 107, and `m_authPath` is still empty. -/
theorem marshal_in_inv_counterexample :
    Inv (construct Fixture.fxParams 2) ∧
    (marshal_in Fixture.fxParams (construct Fixture.fxParams 2)
      { buf := ['2', '0', '0', '0', '0', '\n', '2', '7'], failed := false }).1 = false ∧
    (marshal_in Fixture.fxParams (construct Fixture.fxParams 2)
      { buf := ['2', '0', '0', '0', '0', '\n', '2', '7'], failed := false }).2.1.m_authLeaf
      = [7, 0] ∧
    (marshal_in Fixture.fxParams (construct Fixture.fxParams 2)
      { buf := ['2', '0', '0', '0', '0', '\n', '2', '7'], failed := false }).2.1.m_authPath
      = [] ∧
    ¬ Inv (marshal_in Fixture.fxParams (construct Fixture.fxParams 2)
      { buf := ['2', '0', '0', '0', '0', '\n', '2', '7'], failed := false }).2.1 := by
  decide

/-- C5, amended: the two retained sequences have one length after either
constructor, and that is preserved by `addLeaf` (either flag), by `cleanup`
(any predicate; the call is defined on such a bundle), by `clear`, by
`operator>>` (whether the parse succeeds or fails) and by every `marshal_in`
that returns `true` or that fails in another step than the leaf sequence.
A `marshal_in` that fails in the leaf-sequence step leaves `m_authLeaf` as
the vector extraction left it and `m_authPath` untouched. -/
theorem inv_preserved (P : Params Tree Path Dig) (hcount : KeepsPathCount P) :
    Inv (construct0 P) ∧
    (∀ depth, Inv (construct P depth)) ∧
    (∀ (b : MerkleBundle Tree Path Dig) cm keepPath, Inv b → Inv (addLeaf P b cm keepPath).2) ∧
    (∀ (b : MerkleBundle Tree Path Dig) func, Inv b →
      ∃ b1, cleanup b func = some b1 ∧ Inv b1) ∧
    (∀ b, Inv (clear P b)) ∧
    (∀ b s, Inv (operator_extract P s b).1) ∧
    (∀ b s, (marshal_in P b s).1 = true → Inv (marshal_in P b s).2.1) ∧
    (∀ b s, Inv b → ¬ LeafStepFails P b s → Inv (marshal_in P b s).2.1) ∧
    (∀ b s, LeafStepFails P b s →
      (marshal_in P b s).1 = false ∧
      (marshal_in P b s).2.1.m_authLeaf
        = (P.vecIn b.m_authLeaf (P.countIn b.m_treeSize (P.treeIn b.m_tree s).2.2).2).1 ∧
      (marshal_in P b s).2.1.m_authPath = b.m_authPath) := by
  refine ⟨by simp [Inv, construct0], fun d => by simp [Inv, construct],
    fun b cm k hinv => inv_addLeaf P hcount b cm k hinv, ?_, fun b => by simp [Inv, clear],
    fun b s => inv_operator_extract P b s, fun b s h => inv_marshal_in_true P b s h,
    fun b s hinv h => inv_marshal_in_other P b s hinv h,
    fun b s h => marshal_in_leafStep P b s h⟩
  intro b func hinv
  have hc := cleanup_eq b func (le_of_eq hinv)
  exact ⟨_, hc, inv_cleanup b _ func hinv hc⟩

theorem inv_preserved_witness :
    KeepsPathCount Fixture.fxParams ∧
    Inv Fixture.fxOne ∧
    Inv (addLeaf Fixture.fxParams Fixture.fxOne 9 true).2 ∧
    Inv (addLeaf Fixture.fxParams Fixture.fxOne 9 false).2 ∧
    Inv (operator_extract Fixture.fxParams
      { buf := ['2', '0', '0', '0', '0', '\n', '2', '7'], failed := false }
      (construct Fixture.fxParams 2)).1 := by
  have h := inv_preserved Fixture.fxParams Fixture.fxParams_keepsPathCount
  have h1 : Inv Fixture.fxOne := by decide
  exact ⟨Fixture.fxParams_keepsPathCount, h1, h.2.2.1 _ 9 true h1, h.2.2.1 _ 9 false h1,
    h.2.2.2.2.2.1 _ _⟩

/-! ## cleanup -/

theorem map_fst_filter_zip (func : Dig → Bool) (ls : List Dig) (ps : List Path)
    (h : ls.length ≤ ps.length) :
    ((ls.zip ps).filter (fun x => func x.1)).map Prod.fst = ls.filter func := by
  have h1 : (fun x : Dig × Path => func x.1) = func ∘ Prod.fst := rfl
  rw [h1, ← List.filter_map, List.map_fst_zip _ _ h]

/-- C6: on a bundle whose retained sequences have one length, `cleanup(p)`
is defined and replaces the retained leaves by the leaves that satisfy `p`,
in their order, and the retained paths by the paths that stood at the
positions of the kept leaves: the (leaf, path) pairs afterwards are the
pairs from before whose leaf satisfies `p`.  Tree and counter stay. -/
theorem cleanup_filters (b : MerkleBundle Tree Path Dig) (p : Dig → Bool) (hinv : Inv b) :
    ∃ b1, cleanup b p = some b1 ∧
      b1.m_authLeaf = b.m_authLeaf.filter p ∧
      b1.m_authPath
        = ((b.m_authLeaf.zip b.m_authPath).filter (fun x => p x.1)).map Prod.snd ∧
      b1.m_authLeaf.zip b1.m_authPath
        = (b.m_authLeaf.zip b.m_authPath).filter (fun x => p x.1) ∧
      b1.m_authLeaf.length = b1.m_authPath.length ∧
      b1.m_tree = b.m_tree ∧ b1.m_treeSize = b.m_treeSize := by
  have hc := cleanup_eq b p (le_of_eq hinv)
  refine ⟨_, hc, rfl, rfl, ?_, ?_, rfl, rfl⟩
  · exact (List.zip_of_prod (map_fst_filter_zip p _ _ (le_of_eq hinv)) rfl).symm
  · exact inv_cleanup b _ p hinv hc

theorem cleanup_filters_witness :
    Inv (addLeaves Fixture.fxParams (construct Fixture.fxParams 2)
      [(5, true), (9, true), (4, true)]) ∧
    ∃ b1, cleanup (addLeaves Fixture.fxParams (construct Fixture.fxParams 2)
        [(5, true), (9, true), (4, true)]) (fun cm => decide (cm ≠ 9)) = some b1 ∧
      b1.m_authLeaf = [5, 4] ∧
      b1.m_authPath = [{ root := 49, pos := 0 }, { root := 49, pos := 2 }] := by
  have hinv : Inv (addLeaves Fixture.fxParams (construct Fixture.fxParams 2)
      [(5, true), (9, true), (4, true)]) := by decide
  obtain ⟨b1, h1, h2, h3, _⟩ := cleanup_filters (addLeaves Fixture.fxParams
    (construct Fixture.fxParams 2) [(5, true), (9, true), (4, true)])
    (fun cm => decide (cm ≠ 9)) hinv
  refine ⟨hinv, b1, h1, ?_, ?_⟩
  · rw [h2]; decide
  · rw [h3]; decide

end MerkleBundle

/-! ## The leaf counter -/

namespace MerkleBundle

variable {Tree Path Dig : Type}

theorem treeSize_addLeaves (P : Params Tree Path Dig) (xs : List (Dig × Bool)) :
    ∀ (b : MerkleBundle Tree Path Dig), b.m_treeSize < 2 ^ P.countBits →
      (addLeaves P b xs).m_treeSize = (b.m_treeSize + xs.length) % 2 ^ P.countBits := by
  induction xs with
  | nil =>
    intro b hb
    simp [addLeaves, Nat.mod_eq_of_lt hb]
  | cons x xs ih =>
    intro b _
    have hlt : (addLeaf P b x.1 x.2).2.m_treeSize < 2 ^ P.countBits := by
      simp only [addLeaf]
      exact Nat.mod_lt _ (Nat.pos_pow_of_pos _ (by decide))
    simp only [addLeaves]
    rw [ih _ hlt]
    simp only [addLeaf, List.length_cons, Nat.mod_add_mod]
    congr 1
    omega

theorem succ_mod_ne (n w : Nat) (hw : 1 ≤ w) (hn : n < 2 ^ w) : (n + 1) % 2 ^ w ≠ n := by
  have h2 : 2 ≤ 2 ^ w := by
    calc 2 = 2 ^ 1 := by norm_num
      _ ≤ 2 ^ w := Nat.pow_le_pow_right (by norm_num) hw
  by_cases h : n + 1 < 2 ^ w
  · rw [Nat.mod_eq_of_lt h]; omega
  · have : n + 1 = 2 ^ w := by omega
    rw [this, Nat.mod_self]; omega

theorem treeSize_addLeaf (P : Params Tree Path Dig) (b : MerkleBundle Tree Path Dig)
    (cm : Dig) (keepPath : Bool) :
    (addLeaf P b cm keepPath).2.m_treeSize = (b.m_treeSize + 1) % 2 ^ P.countBits :=
  rfl

/-- C7, as stated, fails when the counter type wraps: with a 16-bit `COUNT`
and a tree of depth 16, the counter reads 65535 after 65535 insertions, the
next `addLeaf` takes it to 0, and after 65536 calls `treeSize()` is 0. -/
theorem treeSize_wrap_counterexample :
    (addLeaves Fixture.fxParams (construct Fixture.fxParams 16)
      (List.replicate 65535 (1, false))).m_treeSize = 65535 ∧
    (addLeaf Fixture.fxParams (addLeaves Fixture.fxParams
      (construct Fixture.fxParams 16) (List.replicate 65535 (1, false))) 1 false).2.m_treeSize
      = 0 ∧
    (addLeaves Fixture.fxParams (construct Fixture.fxParams 16)
      (List.replicate 65536 (1, false))).m_treeSize ≠ 65536 := by
  have h0 : (construct Fixture.fxParams 16).m_treeSize < 2 ^ Fixture.fxParams.countBits := by
    decide
  have h1 : (addLeaves Fixture.fxParams (construct Fixture.fxParams 16)
      (List.replicate 65535 (1, false))).m_treeSize = 65535 := by
    rw [treeSize_addLeaves Fixture.fxParams _ _ h0, List.length_replicate]
    rfl
  have h2 : (addLeaves Fixture.fxParams (construct Fixture.fxParams 16)
      (List.replicate 65536 (1, false))).m_treeSize = 0 := by
    rw [treeSize_addLeaves Fixture.fxParams _ _ h0, List.length_replicate]
    rfl
  refine ⟨h1, ?_, ?_⟩
  · rw [treeSize_addLeaf, h1]
    rfl
  · rw [h2]
    decide

/-- C7, amended: `treeSize` is 0 after construction and after `clear`; every
`addLeaf`, whatever `keepPath`, replaces it by `(treeSize + 1) mod 2^w`, `w`
the width of `COUNT`.  After `n` calls of `addLeaf` since construction or
the last `clear` it is `n mod 2^w`, which is `n` as long as `n < 2^w`.  An
`addLeaf` with `keepPath = false` changes `treeSize` and not the lengths of
the retained sequences. -/
theorem treeSize_counts (P : Params Tree Path Dig) :
    treeSize (construct0 P) = 0 ∧
    (∀ depth, treeSize (construct P depth) = 0) ∧
    (∀ b, treeSize (clear P b) = 0) ∧
    (∀ (b : MerkleBundle Tree Path Dig) cm keepPath,
      treeSize (addLeaf P b cm keepPath).2 = (treeSize b + 1) % 2 ^ P.countBits) ∧
    (∀ (b : MerkleBundle Tree Path Dig) xs, treeSize b = 0 →
      treeSize (addLeaves P b xs) = xs.length % 2 ^ P.countBits) ∧
    (∀ (b : MerkleBundle Tree Path Dig) xs, treeSize b = 0 → xs.length < 2 ^ P.countBits →
      treeSize (addLeaves P b xs) = xs.length) ∧
    (∀ (b : MerkleBundle Tree Path Dig) cm, 1 ≤ P.countBits → treeSize b < 2 ^ P.countBits →
      treeSize (addLeaf P b cm false).2 ≠ treeSize b) ∧
    (∀ (b : MerkleBundle Tree Path Dig) cm, KeepsPathCount P →
      (addLeaf P b cm false).2.m_authLeaf.length = b.m_authLeaf.length ∧
      (addLeaf P b cm false).2.m_authPath.length = b.m_authPath.length) := by
  have hpos : 0 < 2 ^ P.countBits := Nat.pos_pow_of_pos _ (by decide)
  refine ⟨rfl, fun _ => rfl, fun _ => rfl, fun _ _ _ => rfl, ?_, ?_, ?_, ?_⟩
  · intro b xs h0
    simp only [treeSize] at h0 ⊢
    rw [treeSize_addLeaves P xs b (by rw [h0]; exact hpos), h0, Nat.zero_add]
  · intro b xs h0 hlt
    simp only [treeSize] at h0 ⊢
    rw [treeSize_addLeaves P xs b (by rw [h0]; exact hpos), h0, Nat.zero_add,
      Nat.mod_eq_of_lt hlt]
  · intro b cm hw hlt
    simp only [treeSize, addLeaf] at hlt ⊢
    exact succ_mod_ne _ _ hw hlt
  · intro b cm hcount
    have h := hcount b.m_tree cm b.m_authPath
    simp [addLeaf, h]

theorem treeSize_counts_witness :
    treeSize (addLeaves Fixture.fxParams (construct Fixture.fxParams 2)
      [(5, true), (9, false), (4, false)]) = 3 ∧
    treeSize (addLeaf Fixture.fxParams Fixture.fxOne 9 false).2 ≠ treeSize Fixture.fxOne ∧
    (addLeaf Fixture.fxParams Fixture.fxOne 9 false).2.m_authLeaf.length = 1 ∧
    (addLeaf Fixture.fxParams Fixture.fxOne 9 false).2.m_authPath.length = 1 := by
  have h := treeSize_counts Fixture.fxParams
  exact ⟨h.2.2.2.2.2.1 (construct Fixture.fxParams 2) [(5, true), (9, false), (4, false)]
      rfl (by decide),
    h.2.2.2.2.2.2.1 Fixture.fxOne 9 (by decide) (by decide),
    (h.2.2.2.2.2.2.2 Fixture.fxOne 9 Fixture.fxParams_keepsPathCount).1,
    (h.2.2.2.2.2.2.2 Fixture.fxOne 9 Fixture.fxParams_keepsPathCount).2⟩

/-! ## The sentinel -/

/-- C8: the value a non-retaining `addLeaf` returns is `2^64 - 1`; it is
not below the length of either retained sequence, before or after the call,
so it is no valid index, and a retaining `addLeaf` from the same state
returns a different value, one that indexes the record it has just
appended.  The sizes of the two vectors are `std::size_t` values below the
largest one, as `std::vector::max_size()` guarantees. -/
theorem sentinel_not_index (P : Params Tree Path Dig) (b : MerkleBundle Tree Path Dig)
    (cm : Dig) (hcount : KeepsPathCount P)
    (hleaf : b.m_authLeaf.length < SIZE_MAX) (hpath : b.m_authPath.length < SIZE_MAX) :
    (addLeaf P b cm false).1 = 2 ^ 64 - 1 ∧
    ¬ (addLeaf P b cm false).1 < b.m_authLeaf.length ∧
    ¬ (addLeaf P b cm false).1 < b.m_authPath.length ∧
    ¬ (addLeaf P b cm false).1 < (addLeaf P b cm false).2.m_authLeaf.length ∧
    ¬ (addLeaf P b cm false).1 < (addLeaf P b cm false).2.m_authPath.length ∧
    (∀ i, i < b.m_authPath.length → i ≠ (addLeaf P b cm false).1) ∧
    (addLeaf P b cm true).1 ≠ (addLeaf P b cm false).1 ∧
    (addLeaf P b cm true).1 ≠ SIZE_MAX ∧
    (addLeaf P b cm true).1 < (addLeaf P b cm true).2.m_authPath.length := by
  have h := hcount b.m_tree cm b.m_authPath
  have hs : (addLeaf P b cm false).1 = SIZE_MAX := by simp [addLeaf]
  have hk : (addLeaf P b cm true).1 = b.m_authPath.length := by simp [addLeaf, h]
  have hl : (addLeaf P b cm false).2.m_authLeaf.length = b.m_authLeaf.length := by
    simp [addLeaf]
  have hp : (addLeaf P b cm false).2.m_authPath.length = b.m_authPath.length := by
    simp [addLeaf, h]
  have hp2 : (addLeaf P b cm true).2.m_authPath.length = b.m_authPath.length + 1 := by
    simp [addLeaf, h]
  rw [hs, hk, hl, hp, hp2]
  refine ⟨rfl, by omega, by omega, by omega, by omega, fun i hi => by omega, by omega,
    by omega, by omega⟩

theorem sentinel_not_index_witness :
    KeepsPathCount Fixture.fxParams ∧
    Fixture.fxOne.m_authLeaf.length < SIZE_MAX ∧
    Fixture.fxOne.m_authPath.length < SIZE_MAX ∧
    (addLeaf Fixture.fxParams Fixture.fxOne 9 false).1 = 2 ^ 64 - 1 ∧
    (addLeaf Fixture.fxParams Fixture.fxOne 9 true).1
      ≠ (addLeaf Fixture.fxParams Fixture.fxOne 9 false).1 := by
  have h := sentinel_not_index Fixture.fxParams Fixture.fxOne 9
    Fixture.fxParams_keepsPathCount (by decide) (by decide)
  exact ⟨Fixture.fxParams_keepsPathCount, by decide, by decide, h.1, h.2.2.2.2.2.2.1⟩

end MerkleBundle

/-! ## Runs of retaining insertions -/

namespace MerkleBundle

variable {Tree Path Dig : Type}

theorem addLeafTrace_keep (P : Params Tree Path Dig) (hcount : KeepsPathCount P)
    (cms : List Dig) :
    ∀ (b : MerkleBundle Tree Path Dig) (j : Nat), Inv b → j < cms.length →
      ∃ r, (addLeafTrace P b (cms.map (fun cm => (cm, true))))[j]? = some r ∧
        r.1 = b.m_authPath.length + j ∧
        r.2.m_authLeaf.length = b.m_authPath.length + j + 1 ∧
        r.2.m_authPath.length = b.m_authPath.length + j + 1 ∧
        r.2.m_authLeaf = b.m_authLeaf ++ cms.take (j + 1) := by
  induction cms with
  | nil => intro b j _ hj; simp at hj
  | cons cm cms ih =>
    intro b j hinv hj
    have h := addLeaf_keep_aux P hcount b cm
    cases j with
    | zero =>
      refine ⟨addLeaf P b cm true, by simp [addLeafTrace], h.1, ?_, ?_, ?_⟩
      · rw [h.2.1]; simp; exact hinv
      · rw [h.2.2]
      · rw [h.2.1]; simp
    | succ j =>
      have hinv2 : Inv (addLeaf P b cm true).2 := inv_addLeaf P hcount b cm true hinv
      obtain ⟨r, hr, h1, h2, h3, h4⟩ := ih (addLeaf P b cm true).2 j hinv2
        (by simpa using hj)
      refine ⟨r, by simpa [addLeafTrace] using hr, ?_, ?_, ?_, ?_⟩
      · rw [h1, h.2.2]; omega
      · rw [h2, h.2.2]; omega
      · rw [h3, h.2.2]; omega
      · rw [h4, h.2.1]; simp

/-- C9: on a freshly constructed bundle (either constructor), in a run of
`addLeaf` calls that all retain their path, the `k`-th call
(`1 ≤ k ≤ n`) returns `k - 1` and leaves both retained sequences with
length `k`; the retained leaves are then the first `k` inserted leaves. -/
theorem keep_all_indices (P : Params Tree Path Dig) (hcount : KeepsPathCount P)
    (b0 : MerkleBundle Tree Path Dig)
    (hfresh : b0 = construct0 P ∨ ∃ depth, b0 = construct P depth)
    (cms : List Dig) (k : Nat) (hk1 : 1 ≤ k) (hk : k ≤ cms.length) :
    ∃ r, (addLeafTrace P b0 (cms.map (fun cm => (cm, true))))[k - 1]? = some r ∧
      r.1 = k - 1 ∧
      r.2.m_authLeaf.length = k ∧
      r.2.m_authPath.length = k ∧
      r.2.m_authLeaf = cms.take k := by
  have hl : b0.m_authLeaf = [] := by
    rcases hfresh with h | ⟨d, h⟩ <;> subst h <;> rfl
  have hp : b0.m_authPath = [] := by
    rcases hfresh with h | ⟨d, h⟩ <;> subst h <;> rfl
  have hinv : Inv b0 := by simp [Inv, hl, hp]
  obtain ⟨r, hr, h1, h2, h3, h4⟩ := addLeafTrace_keep P hcount cms b0 (k - 1) hinv (by omega)
  have hk2 : k - 1 + 1 = k := by omega
  refine ⟨r, hr, ?_, ?_, ?_, ?_⟩
  · rw [h1, hp]; simp
  · rw [h2, hp]; simp; omega
  · rw [h3, hp]; simp; omega
  · rw [h4, hl, hk2]; simp

theorem keep_all_indices_witness :
    KeepsPathCount Fixture.fxParams ∧
    ∃ r, (addLeafTrace Fixture.fxParams (construct Fixture.fxParams 2)
        ([5, 9, 4].map (fun cm => (cm, true))))[3 - 1]? = some r ∧
      r.1 = 3 - 1 ∧ r.2.m_authLeaf.length = 3 ∧ r.2.m_authPath.length = 3 ∧
      r.2.m_authLeaf = [5, 9, 4].take 3 :=
  ⟨Fixture.fxParams_keepsPathCount,
    keep_all_indices Fixture.fxParams Fixture.fxParams_keepsPathCount
      (construct Fixture.fxParams 2) (Or.inr ⟨2, rfl⟩) [5, 9, 4] 3 (by decide) (by decide)⟩

/-! ## The root hash -/

/-- C10: after `addLeaf(cm, keepPath)`, `rootHash()` is the root hash of the
path that the tree computed for `cm` in that call (read from the tree, after
the sibling update, which leaves that root hash in place), and the flag has
no part in it: from one state and one leaf the retaining and the
non-retaining call leave the same tree, the same counter and the same
`rootHash()`. -/
theorem rootHash_addLeaf (P : Params Tree Path Dig) (b : MerkleBundle Tree Path Dig)
    (cm : Dig) (keepPath : Bool) (hroot : CommitKeepsRoot P) :
    rootHash P (addLeaf P b cm keepPath).2
      = P.rootHash (P.authPath (P.updatePath b.m_tree cm b.m_authPath).1) ∧
    (addLeaf P b cm keepPath).2.m_tree
      = P.updateSiblings (P.updatePath b.m_tree cm b.m_authPath).1 cm ∧
    (addLeaf P b cm true).2.m_tree = (addLeaf P b cm false).2.m_tree ∧
    treeSize (addLeaf P b cm true).2 = treeSize (addLeaf P b cm false).2 ∧
    rootHash P (addLeaf P b cm true).2 = rootHash P (addLeaf P b cm false).2 := by
  refine ⟨?_, rfl, rfl, rfl, rfl⟩
  simp only [rootHash, addLeaf]
  exact hroot _ cm

theorem rootHash_addLeaf_witness :
    CommitKeepsRoot Fixture.fxParams ∧
    rootHash Fixture.fxParams (addLeaf Fixture.fxParams Fixture.fxOne 9 false).2 = 52 ∧
    rootHash Fixture.fxParams (addLeaf Fixture.fxParams Fixture.fxOne 9 true).2
      = rootHash Fixture.fxParams (addLeaf Fixture.fxParams Fixture.fxOne 9 false).2 := by
  have h := rootHash_addLeaf Fixture.fxParams Fixture.fxOne 9 false
    Fixture.fxParams_commitKeepsRoot
  exact ⟨Fixture.fxParams_commitKeepsRoot, by rw [h.1]; decide, h.2.2.2.2⟩

end MerkleBundle

/-! ## Frame and algebra of cleanup -/

namespace MerkleBundle

variable {Tree Path Dig : Type}

theorem cleanupLoop_some (func : Dig → Bool) (paths : List Path) (rest : List Dig) :
    ∀ (i : Nat) (keepLeaf : List Dig) (keepPath : List Path) (r : List Dig × List Path),
      cleanupLoop func paths rest i keepLeaf keepPath = some r →
      r.1 = keepLeaf ++ rest.filter func ∧
      r.2.length = keepPath.length + (rest.filter func).length := by
  induction rest with
  | nil =>
    intro i kl kp r h
    simp only [cleanupLoop, Option.some.injEq] at h
    subst h
    simp
  | cons cm rest ih =>
    intro i kl kp r h
    by_cases hf : func cm = true
    · simp only [cleanupLoop, hf, if_true] at h
      cases hg : paths[i]? with
      | none => simp [hg] at h
      | some q =>
        simp only [hg] at h
        have := ih (i + 1) (kl ++ [cm]) (kp ++ [q]) r h
        refine ⟨by simpa [List.filter_cons, hf] using this.1, ?_⟩
        rw [this.2]
        simp [List.filter_cons, hf]
        omega
    · simp only [cleanupLoop, hf] at h
      have := ih (i + 1) kl kp r h
      simpa [List.filter_cons, hf] using this

theorem cleanup_some (b b1 : MerkleBundle Tree Path Dig) (func : Dig → Bool)
    (h : cleanup b func = some b1) :
    b1.m_tree = b.m_tree ∧ b1.m_treeSize = b.m_treeSize ∧
    b1.m_authLeaf = b.m_authLeaf.filter func ∧
    b1.m_authLeaf.length = b1.m_authPath.length := by
  unfold cleanup at h
  cases hc : cleanupLoop func b.m_authPath b.m_authLeaf 0 [] [] with
  | none => simp [hc] at h
  | some kept =>
    simp only [hc, Option.some.injEq] at h
    subst h
    have := cleanupLoop_some func b.m_authPath b.m_authLeaf 0 [] [] kept hc
    refine ⟨rfl, rfl, by simpa using this.1, ?_⟩
    have h1 := this.1
    have h2 := this.2
    simp only [List.nil_append, List.length_nil, Nat.zero_add] at h1 h2
    show kept.1.length = kept.2.length
    rw [h1, h2]

theorem cleanup_fixed (b : MerkleBundle Tree Path Dig) (func : Dig → Bool)
    (hinv : b.m_authLeaf.length = b.m_authPath.length)
    (hall : ∀ x ∈ b.m_authLeaf, func x = true) : cleanup b func = some b := by
  rw [cleanup_eq b func (le_of_eq hinv)]
  have h1 : b.m_authLeaf.filter func = b.m_authLeaf := List.filter_eq_self.mpr hall
  have h2 : (b.m_authLeaf.zip b.m_authPath).filter (fun x => func x.1)
      = b.m_authLeaf.zip b.m_authPath := by
    apply List.filter_eq_self.mpr
    intro x hx
    exact hall x.1 (List.of_mem_zip hx).1
  rw [h1, h2, List.map_snd_zip _ _ (le_of_eq hinv.symm)]

/-- C11: `cleanup(p)` leaves the tree and the counter as they are, and with
them `isFull()`, `treeSize()` and `rootHash()`; `isFull()` is read from the
tree alone, so two bundles with one tree agree on it whatever their
retained lists hold.  The call is defined on every bundle whose retained
sequences have one length. -/
theorem cleanup_frame (P : Params Tree Path Dig) (b : MerkleBundle Tree Path Dig)
    (p : Dig → Bool) :
    (Inv b → ∃ b1, cleanup b p = some b1) ∧
    (∀ b1, cleanup b p = some b1 →
      b1.m_tree = b.m_tree ∧ b1.m_treeSize = b.m_treeSize ∧
      isFull P b1 = isFull P b ∧ treeSize b1 = treeSize b ∧
      rootHash P b1 = rootHash P b) ∧
    (∀ b2 : MerkleBundle Tree Path Dig, b2.m_tree = b.m_tree → isFull P b2 = isFull P b) := by
  refine ⟨fun hinv => ⟨_, cleanup_eq b p (le_of_eq hinv)⟩, ?_, ?_⟩
  · intro b1 h
    have hs := cleanup_some b b1 p h
    refine ⟨hs.1, hs.2.1, ?_, hs.2.1, ?_⟩
    · simp [isFull, hs.1]
    · simp [rootHash, hs.1]
  · intro b2 h
    simp [isFull, h]

theorem cleanup_frame_witness :
    cleanup Fixture.fxBundle (fun cm => decide (cm ≠ 5)) = some Fixture.fxPruned ∧
    isFull Fixture.fxParams Fixture.fxPruned = isFull Fixture.fxParams Fixture.fxBundle ∧
    treeSize Fixture.fxPruned = 2 ∧
    rootHash Fixture.fxParams Fixture.fxPruned = 52 := by
  have hc : cleanup Fixture.fxBundle (fun cm => decide (cm ≠ 5)) = some Fixture.fxPruned :=
    rfl
  have h := (cleanup_frame Fixture.fxParams Fixture.fxBundle
    (fun cm => decide (cm ≠ 5))).2.1 _ hc
  refine ⟨hc, h.2.2.1, ?_, ?_⟩
  · rw [h.2.2.2.1]; decide
  · rw [h.2.2.2.2]; decide

/-- C12: `cleanup` is idempotent for a pure predicate `p`: running it a
second time on the result of the first run gives that result again.  On a
bundle whose retained sequences have one length both runs are defined. -/
theorem cleanup_idempotent (b : MerkleBundle Tree Path Dig) (p : Dig → Bool) :
    (cleanup b p).bind (fun b1 => cleanup b1 p) = cleanup b p ∧
    (∀ b1, cleanup b p = some b1 → cleanup b1 p = some b1) ∧
    (Inv b → ∃ b1, cleanup b p = some b1 ∧ cleanup b1 p = some b1) := by
  have key : ∀ b1, cleanup b p = some b1 → cleanup b1 p = some b1 := by
    intro b1 h
    have hs := cleanup_some b b1 p h
    apply cleanup_fixed b1 p hs.2.2.2
    intro x hx
    rw [hs.2.2.1] at hx
    exact (List.mem_filter.mp hx).2
  refine ⟨?_, key, ?_⟩
  · cases h : cleanup b p with
    | none => rfl
    | some b1 => simpa using key b1 h
  · intro hinv
    have hc := cleanup_eq b p (le_of_eq hinv)
    exact ⟨_, hc, key _ hc⟩

theorem cleanup_idempotent_witness :
    cleanup Fixture.fxThree (fun cm => decide (cm ≠ 9)) = some Fixture.fxThreeKept ∧
    cleanup Fixture.fxThreeKept (fun cm => decide (cm ≠ 9)) = some Fixture.fxThreeKept := by
  have hc : cleanup Fixture.fxThree (fun cm => decide (cm ≠ 9)) = some Fixture.fxThreeKept :=
    rfl
  exact ⟨hc, (cleanup_idempotent Fixture.fxThree (fun cm => decide (cm ≠ 9))).2.1 _ hc⟩

/-- C13: on a bundle whose retained sequences have one length, `cleanup`
with the predicate that is always true changes nothing, and `cleanup` with
the predicate that is always false empties both retained sequences and
leaves the tree and the counter as they are. -/
theorem cleanup_true_false (b : MerkleBundle Tree Path Dig) (hinv : Inv b) :
    cleanup b (fun _ => true) = some b ∧
    cleanup b (fun _ => false) = some { b with m_authLeaf := [], m_authPath := [] } ∧
    (∃ b1, cleanup b (fun _ => false) = some b1 ∧
      b1.m_authLeaf = [] ∧ b1.m_authPath = [] ∧
      b1.m_tree = b.m_tree ∧ b1.m_treeSize = b.m_treeSize) := by
  have hf : cleanup b (fun _ => false)
      = some { b with m_authLeaf := [], m_authPath := [] } := by
    rw [cleanup_eq b _ (le_of_eq hinv)]
    simp
  exact ⟨cleanup_fixed b _ hinv (fun _ _ => rfl), hf, _, hf, rfl, rfl, rfl, rfl⟩

theorem cleanup_true_false_witness :
    Inv Fixture.fxOne ∧
    cleanup Fixture.fxOne (fun _ => true) = some Fixture.fxOne ∧
    cleanup Fixture.fxOne (fun _ => false) = some Fixture.fxOnePruned := by
  have hinv : Inv Fixture.fxOne := by decide
  have h := cleanup_true_false Fixture.fxOne hinv
  exact ⟨hinv, h.1, h.2.1⟩

end MerkleBundle

/-! ## clear, empty and isFull -/

namespace MerkleBundle

variable {Tree Path Dig : Type}

theorem growTree_append (P : Params Tree Path Dig) (s1 s2 : List (Dig × List Path)) :
    ∀ (t : Tree), growTree P (growTree P t s1) s2 = growTree P t (s1 ++ s2) := by
  induction s1 with
  | nil => intro t; rfl
  | cons x xs ih => intro t; simp only [growTree, List.cons_append]; exact ih _

theorem run_tree (P : Params Tree Path Dig) (cs : List (Call Dig)) :
    ∀ (b b1 : MerkleBundle Tree Path Dig), run P b cs = some b1 →
      ∃ steps, steps.length = insertCount cs ∧ b1.m_tree = growTree P b.m_tree steps := by
  induction cs with
  | nil =>
    intro b b1 h
    simp only [run, Option.some.injEq] at h
    subst h
    exact ⟨[], rfl, rfl⟩
  | cons c cs ih =>
    intro b b1 h
    cases c with
    | addLeaf cm keepPath =>
      simp only [run, step] at h
      obtain ⟨steps, hlen, htree⟩ := ih _ b1 h
      refine ⟨(cm, b.m_authPath) :: steps, by simp [insertCount, hlen], ?_⟩
      rw [htree]
      rfl
    | cleanup func =>
      simp only [run, step] at h
      cases hc : cleanup b func with
      | none => simp [hc] at h
      | some b2 =>
        simp only [hc] at h
        obtain ⟨steps, hlen, htree⟩ := ih b2 b1 h
        refine ⟨steps, by simp [insertCount, hlen], ?_⟩
        rw [htree, (cleanup_some b b2 func hc).1]

theorem addLeaves_tree (P : Params Tree Path Dig) (xs : List (Dig × Bool)) :
    ∀ (b : MerkleBundle Tree Path Dig),
      ∃ steps, steps.length = xs.length ∧
        (addLeaves P b xs).m_tree = growTree P b.m_tree steps := by
  induction xs with
  | nil => intro b; exact ⟨[], rfl, rfl⟩
  | cons x xs ih =>
    intro b
    obtain ⟨steps, hlen, htree⟩ := ih (addLeaf P b x.1 x.2).2
    refine ⟨(x.1, b.m_authPath) :: steps, by simp [hlen], ?_⟩
    simp only [addLeaves]
    rw [htree]
    rfl

theorem addLeaves_nokeep_leaf (P : Params Tree Path Dig) (cms : List Dig) :
    ∀ (b : MerkleBundle Tree Path Dig),
      (addLeaves P b (cms.map (fun cm => (cm, false)))).m_authLeaf = b.m_authLeaf := by
  induction cms with
  | nil => intro b; rfl
  | cons cm cms ih =>
    intro b
    simp only [List.map_cons, addLeaves]
    rw [ih]
    simp [addLeaf]

/-- C14: for a bundle built from `MerkleBundle(depth)` by `addLeaf` and
`cleanup` calls, `clear()` gives a bundle equal to a freshly constructed
one of that depth: the counter is 0, both retained sequences are empty and
the tree is `TREE(depth)` (the tree is what `m_tree.clear()` leaves, and the
tree engine is taken to restore its construction state on `clear`). -/
theorem clear_eq_construct (P : Params Tree Path Dig) (hclear : ClearRestores P)
    (depth : Nat) (cs : List (Call Dig)) (b : MerkleBundle Tree Path Dig)
    (hreach : run P (construct P depth) cs = some b) :
    clear P b = construct P depth ∧
    treeSize (clear P b) = 0 ∧
    (clear P b).m_authLeaf = [] ∧
    (clear P b).m_authPath = [] ∧
    (clear P b).m_tree = P.treeClear b.m_tree ∧
    (clear P b).m_tree = P.treeNew depth ∧
    clear P (construct P depth) = construct P depth := by
  obtain ⟨steps, _, htree⟩ := run_tree P cs _ b hreach
  have ht : P.treeClear b.m_tree = P.treeNew depth := by
    rw [htree]
    exact hclear depth steps
  have h0 : P.treeClear (P.treeNew depth) = P.treeNew depth := hclear depth []
  refine ⟨?_, rfl, rfl, rfl, rfl, ht, ?_⟩
  · simp [clear, construct, ht]
  · simp [clear, construct, h0]

theorem clear_eq_construct_witness :
    ClearRestores Fixture.fxParams ∧
    run Fixture.fxParams (construct Fixture.fxParams 2)
      [Call.addLeaf 5 true, Call.addLeaf 9 false] = some Fixture.fxBundle ∧
    clear Fixture.fxParams Fixture.fxBundle = construct Fixture.fxParams 2 :=
  ⟨Fixture.fxParams_clearRestores, rfl,
    (clear_eq_construct Fixture.fxParams Fixture.fxParams_clearRestores 2
      [Call.addLeaf 5 true, Call.addLeaf 9 false] Fixture.fxBundle rfl).1⟩

/-- C15: `empty()` is true exactly when the tree reports empty, or the
counter is 0, or the retained leaves are empty, or the retained paths are
empty.  So it is true, whatever the counter, for a bundle without retained
paths, for the result of a `cleanup` that keeps no leaf, and after
insertions that never retained a path. -/
theorem empty_iff (P : Params Tree Path Dig) (b : MerkleBundle Tree Path Dig) :
    (empty P b = true ↔
      (P.treeEmpty b.m_tree = true ∨ b.m_treeSize = 0 ∨ b.m_authLeaf = [] ∨
        b.m_authPath = [])) ∧
    (b.m_authPath = [] → empty P b = true) ∧
    (∀ (p : Dig → Bool) b1, cleanup b p = some b1 → (∀ x ∈ b.m_authLeaf, p x = false) →
      b1.m_authLeaf = [] ∧ b1.m_authPath = [] ∧ b1.m_treeSize = b.m_treeSize ∧
      empty P b1 = true) ∧
    (∀ (depth : Nat) (cms : List Dig),
      empty P (addLeaves P (construct P depth) (cms.map (fun cm => (cm, false)))) = true) := by
  have hiff : empty P b = true ↔
      (P.treeEmpty b.m_tree = true ∨ b.m_treeSize = 0 ∨ b.m_authLeaf = [] ∨
        b.m_authPath = []) := by
    simp only [empty, Bool.or_eq_true, beq_iff_eq, List.isEmpty_iff]
    constructor
    · rintro (((h | h) | h) | h)
      · exact Or.inl h
      · exact Or.inr (Or.inl h.symm)
      · exact Or.inr (Or.inr (Or.inl h))
      · exact Or.inr (Or.inr (Or.inr h))
    · rintro (h | h | h | h)
      · exact Or.inl (Or.inl (Or.inl h))
      · exact Or.inl (Or.inl (Or.inr h.symm))
      · exact Or.inl (Or.inr h)
      · exact Or.inr h
  refine ⟨hiff, fun h => hiff.mpr (Or.inr (Or.inr (Or.inr h))), ?_, ?_⟩
  · intro p b1 hc hall
    have hs := cleanup_some b b1 p hc
    have hl : b1.m_authLeaf = [] := by
      rw [hs.2.2.1]
      exact List.filter_eq_nil_iff.mpr (fun x hx => by simp [hall x hx])
    have hp : b1.m_authPath = [] := by
      apply List.length_eq_zero.mp
      rw [← hs.2.2.2, hl]
      rfl
    refine ⟨hl, hp, hs.2.1, ?_⟩
    simp [empty, hl]
  · intro depth cms
    have hl : (addLeaves P (construct P depth) (cms.map (fun cm => (cm, false)))).m_authLeaf
        = [] := addLeaves_nokeep_leaf P cms (construct P depth)
    simp [empty, hl]

theorem empty_iff_witness :
    cleanup Fixture.fxBundle (fun cm => decide (cm ≠ 5)) = some Fixture.fxPruned ∧
    0 < treeSize Fixture.fxPruned ∧
    Fixture.fxParams.treeEmpty Fixture.fxPruned.m_tree = false ∧
    empty Fixture.fxParams Fixture.fxPruned = true := by
  have hc : cleanup Fixture.fxBundle (fun cm => decide (cm ≠ 5)) = some Fixture.fxPruned :=
    rfl
  have h := (empty_iff Fixture.fxParams Fixture.fxBundle).2.2.1
    (fun cm => decide (cm ≠ 5)) Fixture.fxPruned hc (by decide)
  exact ⟨hc, by decide, by decide, h.2.2.2⟩

end MerkleBundle

/-! ## Capacity -/

namespace MerkleBundle

variable {Tree Path Dig : Type}

theorem isFull_addLeaves (P : Params Tree Path Dig) (hfull : FullAtCapacity P)
    (depth : Nat) (xs : List (Dig × Bool)) (hx : xs.length ≤ 2 ^ depth) :
    isFull P (addLeaves P (construct P depth) xs) = true ↔ xs.length = 2 ^ depth := by
  obtain ⟨steps, hlen, htree⟩ := addLeaves_tree P xs (construct P depth)
  have ht : (construct P depth).m_tree = P.treeNew depth := rfl
  simp only [isFull]
  rw [htree, ht, ← hlen]
  exact hfull depth steps (by rw [hlen]; exact hx)

/-- C16: after exactly `2^depth` calls of `addLeaf`, with any mix of flags,
on a bundle constructed with that depth, `isFull()` is true (and it is false
after fewer calls).  In the depth-2 scenario the two retaining insertions
return 0 and 1 and leave the retained leaves `[L0, L1]`, counter 2 and
`isFull()` false; two more insertions without retention leave counter 4,
the same two retained leaves and `isFull()` true.  The tree engine is taken
to be full exactly at its capacity of `2^depth` leaves; the counter type
holds the value 4. -/
theorem isFull_at_capacity (P : Params Tree Path Dig) (hfull : FullAtCapacity P)
    (hcount : KeepsPathCount P) (hbits : 3 ≤ P.countBits)
    (depth : Nat) (xs : List (Dig × Bool)) (hx : xs.length = 2 ^ depth) (L0 L1 L2 L3 : Dig) :
    isFull P (addLeaves P (construct P depth) xs) = true ∧
    (∀ ys : List (Dig × Bool), ys.length < 2 ^ depth →
      isFull P (addLeaves P (construct P depth) ys) = false) ∧
    (addLeaf P (construct P 2) L0 true).1 = 0 ∧
    (addLeaf P (addLeaves P (construct P 2) [(L0, true)]) L1 true).1 = 1 ∧
    (addLeaves P (construct P 2) [(L0, true), (L1, true)]).m_authLeaf = [L0, L1] ∧
    treeSize (addLeaves P (construct P 2) [(L0, true), (L1, true)]) = 2 ∧
    isFull P (addLeaves P (construct P 2) [(L0, true), (L1, true)]) = false ∧
    treeSize (addLeaves P (construct P 2)
      [(L0, true), (L1, true), (L2, false), (L3, false)]) = 4 ∧
    (addLeaves P (construct P 2)
      [(L0, true), (L1, true), (L2, false), (L3, false)]).m_authLeaf = [L0, L1] ∧
    (addLeaves P (construct P 2)
      [(L0, true), (L1, true), (L2, false), (L3, false)]).m_authLeaf.length = 2 ∧
    isFull P (addLeaves P (construct P 2)
      [(L0, true), (L1, true), (L2, false), (L3, false)]) = true := by
  have h8 : 8 ≤ 2 ^ P.countBits := by
    calc 8 = 2 ^ 3 := by norm_num
      _ ≤ 2 ^ P.countBits := Nat.pow_le_pow_right (by norm_num) hbits
  have h0 : (construct P 2).m_treeSize < 2 ^ P.countBits := by
    show 0 < 2 ^ P.countBits
    omega
  have ha := addLeaf_keep_aux P hcount (construct P 2) L0
  have hb := addLeaf_keep_aux P hcount (addLeaf P (construct P 2) L0 true).2 L1
  have hleaf2 : (addLeaves P (construct P 2) [(L0, true), (L1, true)]).m_authLeaf
      = [L0, L1] := by
    show (addLeaf P (addLeaf P (construct P 2) L0 true).2 L1 true).2.m_authLeaf = [L0, L1]
    rw [hb.2.1, ha.2.1]
    rfl
  have hleaf4 : (addLeaves P (construct P 2)
      [(L0, true), (L1, true), (L2, false), (L3, false)]).m_authLeaf = [L0, L1] := by
    show (addLeaf P (addLeaf P (addLeaf P (addLeaf P (construct P 2) L0 true).2
      L1 true).2 L2 false).2 L3 false).2.m_authLeaf = [L0, L1]
    have : (addLeaf P (addLeaf P (construct P 2) L0 true).2 L1 true).2.m_authLeaf
        = [L0, L1] := hleaf2
    simpa [addLeaf] using this
  refine ⟨(isFull_addLeaves P hfull depth xs (le_of_eq hx)).mpr hx, ?_, ?_, ?_, hleaf2,
    ?_, ?_, ?_, hleaf4, by rw [hleaf4]; rfl, ?_⟩
  · intro ys hy
    cases hf : isFull P (addLeaves P (construct P depth) ys) with
    | false => rfl
    | true =>
      have := (isFull_addLeaves P hfull depth ys (le_of_lt hy)).mp hf
      omega
  · rw [ha.1]; rfl
  · show (addLeaf P (addLeaf P (construct P 2) L0 true).2 L1 true).1 = 1
    rw [hb.1, ha.2.2]
    rfl
  · show (addLeaves P (construct P 2) [(L0, true), (L1, true)]).m_treeSize = 2
    rw [treeSize_addLeaves P _ _ h0]
    show (0 + 2) % 2 ^ P.countBits = 2
    exact Nat.mod_eq_of_lt (by omega)
  · cases hf : isFull P (addLeaves P (construct P 2) [(L0, true), (L1, true)]) with
    | false => rfl
    | true =>
      have := (isFull_addLeaves P hfull 2 [(L0, true), (L1, true)] (by norm_num)).mp hf
      norm_num at this
  · show (addLeaves P (construct P 2)
      [(L0, true), (L1, true), (L2, false), (L3, false)]).m_treeSize = 4
    rw [treeSize_addLeaves P _ _ h0]
    show (0 + 4) % 2 ^ P.countBits = 4
    exact Nat.mod_eq_of_lt (by omega)
  · exact (isFull_addLeaves P hfull 2 _ (by norm_num)).mpr (by norm_num)

theorem isFull_at_capacity_witness :
    FullAtCapacity Fixture.fxParams ∧ KeepsPathCount Fixture.fxParams ∧
    3 ≤ Fixture.fxParams.countBits ∧
    isFull Fixture.fxParams (addLeaves Fixture.fxParams (construct Fixture.fxParams 1)
      [(5, true), (9, false)]) = true ∧
    isFull Fixture.fxParams (addLeaves Fixture.fxParams (construct Fixture.fxParams 2)
      [(5, true), (9, true)]) = false ∧
    isFull Fixture.fxParams (addLeaves Fixture.fxParams (construct Fixture.fxParams 2)
      [(5, true), (9, true), (4, false), (7, false)]) = true := by
  have h := isFull_at_capacity Fixture.fxParams Fixture.fxParams_fullAtCapacity
    Fixture.fxParams_keepsPathCount (by decide) 1 [(5, true), (9, false)] (by decide)
    5 9 4 7
  exact ⟨Fixture.fxParams_fullAtCapacity, Fixture.fxParams_keepsPathCount, by decide,
    h.1, h.2.2.2.2.2.2.1, h.2.2.2.2.2.2.2.2.2.2⟩

/-! ## Order of the steps of addLeaf -/

/-- C17: in `addLeaf` the path is computed before the leaf is committed.
The record appended by a retaining insertion is the tree's path as it stands
after `updatePath` for `cm` and before `updateSiblings` for `cm`; the tree
after the call, whatever the flag, is that tree with `updateSiblings`
applied once, which is one insertion step of the tree. -/
theorem addLeaf_snapshot (P : Params Tree Path Dig) (b : MerkleBundle Tree Path Dig)
    (cm : Dig) :
    (addLeaf P b cm true).2.m_authPath
      = (P.updatePath b.m_tree cm b.m_authPath).2
        ++ [P.authPath (P.updatePath b.m_tree cm b.m_authPath).1] ∧
    (addLeaf P b cm true).2.m_authPath.getLast?
      = some (P.authPath (P.updatePath b.m_tree cm b.m_authPath).1) ∧
    (∀ keepPath, (addLeaf P b cm keepPath).2.m_tree
      = P.updateSiblings (P.updatePath b.m_tree cm b.m_authPath).1 cm) ∧
    (∀ keepPath, (addLeaf P b cm keepPath).2.m_tree
      = growTree P b.m_tree [(cm, b.m_authPath)]) := by
  refine ⟨by simp [addLeaf], by simp [addLeaf], fun _ => rfl, fun _ => rfl⟩

end MerkleBundle

/-! ## Layout of the serialization -/

namespace MerkleBundle

variable {Tree Path Dig : Type}

theorem foldl_pathOut_flatten (P : Params Tree Path Dig) (ps : List Path) :
    ∀ (init : List Char),
      ps.foldl (fun o r => o ++ P.pathOut r) init = init ++ (ps.map P.pathOut).flatten := by
  induction ps with
  | nil => intro init; simp
  | cons p ps ih =>
    intro init
    simp only [List.foldl_cons, List.map_cons, List.flatten_cons]
    rw [ih (init ++ P.pathOut p)]
    simp

theorem readPaths_pathSteps (P : Params Tree Path Dig) (ps : List Path) :
    ∀ (s : IStream),
      (readPaths P ps s).1 = (pathSteps P ps s).all (fun r => r.1) ∧
      (pathSteps P ps s).length ≤ ps.length ∧
      ((readPaths P ps s).1 = true →
        (pathSteps P ps s).length = ps.length ∧
        (readPaths P ps s).2.1 = (pathSteps P ps s).map (fun r => r.2.1)) := by
  induction ps with
  | nil => intro s; simp [readPaths, pathSteps]
  | cons r rest ih =>
    intro s
    by_cases h : (P.pathIn r s).1 = true
    · have := ih (P.pathIn r s).2.2
      simp only [readPaths, pathSteps, h, if_true, List.all_cons, Bool.true_and,
        List.length_cons, List.map_cons]
      refine ⟨this.1, by omega, fun hs => ?_⟩
      have h2 := this.2.2 hs
      exact ⟨by omega, by rw [h2.2]⟩
    · simp [readPaths, pathSteps, h]

theorem marshal_in_true_iff (P : Params Tree Path Dig) (b : MerkleBundle Tree Path Dig)
    (s : IStream) : (marshal_in P b s).1 = true ↔ ¬ ParseFails P b s := by
  constructor
  · intro h hf
    rw [marshal_in_false_of_parseFails P b s hf] at h
    exact Bool.false_ne_true h
  · intro h
    unfold ParseFails at h
    unfold marshal_in
    by_cases h1 : (P.treeIn b.m_tree s).1 = false
    · exact absurd (Or.inl h1) h
    · by_cases h2 : (P.countIn b.m_treeSize (P.treeIn b.m_tree s).2.2).2.failed = true
      · exact absurd (Or.inr (Or.inl h2)) h
      · by_cases h3 : (P.vecIn b.m_authLeaf
            (P.countIn b.m_treeSize (P.treeIn b.m_tree s).2.2).2).2.failed = true
        · exact absurd (Or.inr (Or.inr (Or.inl h3))) h
        · simp only [h1, h2, h3]
          simp only [Bool.false_eq_true, if_false]
          by_contra h4
          exact h (Or.inr (Or.inr (Or.inr (by simpa using h4))))

theorem marshal_in_true_fields (P : Params Tree Path Dig) (b : MerkleBundle Tree Path Dig)
    (s : IStream) (h : (marshal_in P b s).1 = true) :
    (marshal_in P b s).2.1.m_authLeaf = (leafStage P b s).1 ∧
    (marshal_in P b s).2.1.m_authPath
      = (readPaths P (resize P.pathDefault b.m_authPath (leafStage P b s).1.length)
          (leafStage P b s).2).2.1 ∧
    (readPaths P (resize P.pathDefault b.m_authPath (leafStage P b s).1.length)
          (leafStage P b s).2).1 = true := by
  have hn := (marshal_in_true_iff P b s).mp h
  unfold ParseFails at hn
  have h1 : ¬ (P.treeIn b.m_tree s).1 = false := fun x => hn (Or.inl x)
  have h2 : ¬ (P.countIn b.m_treeSize (P.treeIn b.m_tree s).2.2).2.failed = true :=
    fun x => hn (Or.inr (Or.inl x))
  have h3 : ¬ (P.vecIn b.m_authLeaf
      (P.countIn b.m_treeSize (P.treeIn b.m_tree s).2.2).2).2.failed = true :=
    fun x => hn (Or.inr (Or.inr (Or.inl x)))
  have h4 : (readPaths P (resize P.pathDefault b.m_authPath (leafStage P b s).1.length)
      (leafStage P b s).2).1 = true := by
    by_contra x
    exact hn (Or.inr (Or.inr (Or.inr (by simpa [leafStage] using x))))
  refine ⟨?_, ?_, h4⟩
  · simp [marshal_in, leafStage, h1, h2, h3]
  · simp [marshal_in, leafStage, h1, h2, h3]

/-- C18: `marshal_out` writes the tree, the counter, a line break, the
retained leaves and then the retained paths one after the other in sequence
order, with no count of the paths.  `marshal_in` returns `true` exactly when
no parse step fails, that is when the tree, the counter, the leaf vector and
every path record it reads are read with success; then it has read exactly
as many path records as the leaf vector it has parsed is long, and both
retained sequences have that length. -/
theorem marshal_layout (P : Params Tree Path Dig) (b : MerkleBundle Tree Path Dig)
    (os : List Char) (s : IStream) :
    marshal_out P b os
      = os ++ P.treeOut b.m_tree ++ P.countOut b.m_treeSize ++ ['\n']
          ++ P.vecOut b.m_authLeaf ++ (b.m_authPath.map P.pathOut).flatten ∧
    ((marshal_in P b s).1 = true ↔ ¬ ParseFails P b s) ∧
    ((marshal_in P b s).1 = true ↔
      ((P.treeIn b.m_tree s).1 = true ∧
       (P.countIn b.m_treeSize (P.treeIn b.m_tree s).2.2).2.failed = false ∧
       (leafStage P b s).2.failed = false ∧
       (pathStage P b s).all (fun r => r.1) = true)) ∧
    (pathStage P b s).length ≤ (leafStage P b s).1.length ∧
    ((marshal_in P b s).1 = true →
      (marshal_in P b s).2.1.m_authLeaf = (leafStage P b s).1 ∧
      (pathStage P b s).length = (leafStage P b s).1.length ∧
      (marshal_in P b s).2.1.m_authPath = (pathStage P b s).map (fun r => r.2.1) ∧
      (marshal_in P b s).2.1.m_authPath.length = (leafStage P b s).1.length ∧
      (marshal_in P b s).2.1.m_authLeaf.length = (leafStage P b s).1.length) := by
  have hps := readPaths_pathSteps P
    (resize P.pathDefault b.m_authPath (leafStage P b s).1.length) (leafStage P b s).2
  have hres := length_resize P.pathDefault b.m_authPath (leafStage P b s).1.length
  refine ⟨?_, marshal_in_true_iff P b s, ?_, ?_, ?_⟩
  · simp only [marshal_out]
    rw [foldl_pathOut_flatten]
  · rw [marshal_in_true_iff]
    unfold ParseFails
    rw [show (readPaths P (resize P.pathDefault b.m_authPath
          (P.vecIn b.m_authLeaf (P.countIn b.m_treeSize (P.treeIn b.m_tree s).2.2).2).1.length)
          (P.vecIn b.m_authLeaf (P.countIn b.m_treeSize (P.treeIn b.m_tree s).2.2).2).2).1
        = (pathStage P b s).all (fun r => r.1) from hps.1]
    simp only [leafStage, not_or, Bool.not_eq_false, Bool.not_eq_true]
  · have := hps.2.1
    rw [hres] at this
    exact this
  · intro h
    have hf := marshal_in_true_fields P b s h
    have h2 := hps.2.2 hf.2.2
    rw [hres] at h2
    refine ⟨hf.1, h2.1, ?_, ?_, ?_⟩
    · rw [hf.2.1]; exact h2.2
    · rw [hf.2.1, h2.2, List.length_map]; exact h2.1
    · rw [hf.1]

theorem marshal_layout_witness :
    marshal_out Fixture.fxParams Fixture.fxBundle [] = "22d12\n15d0".toList ∧
    (marshal_in Fixture.fxParams Fixture.fxOne
      { buf := "22d12\n15d0".toList, failed := false }).1 = true ∧
    (pathStage Fixture.fxParams Fixture.fxOne
      { buf := "22d12\n15d0".toList, failed := false }).length = 1 ∧
    (marshal_in Fixture.fxParams Fixture.fxOne
      { buf := "22d12\n15d0".toList, failed := false }).2.1.m_authPath.length = 1 := by
  have h := marshal_layout Fixture.fxParams Fixture.fxOne []
    { buf := "22d12\n15d0".toList, failed := false }
  have ht : (marshal_in Fixture.fxParams Fixture.fxOne
      { buf := "22d12\n15d0".toList, failed := false }).1 = true := by decide
  have h5 := h.2.2.2.2 ht
  refine ⟨by decide, ht, ?_, ?_⟩
  · rw [h5.2.1]; decide
  · rw [h5.2.2.2.1]; decide

end MerkleBundle

/-! ## The retained leaves along a call sequence -/

namespace MerkleBundle

variable {Tree Path Dig : Type}

theorem addLeaf_leaf (P : Params Tree Path Dig) (b : MerkleBundle Tree Path Dig) (cm : Dig)
    (keepPath : Bool) :
    (addLeaf P b cm keepPath).2.m_authLeaf
      = if keepPath then b.m_authLeaf ++ [cm] else b.m_authLeaf :=
  rfl

theorem run_leaf_sublist (P : Params Tree Path Dig) (cs : List (Call Dig)) :
    ∀ (b b1 : MerkleBundle Tree Path Dig), run P b cs = some b1 →
      List.Sublist b1.m_authLeaf (b.m_authLeaf ++ retainedInserts cs) := by
  induction cs with
  | nil =>
    intro b b1 h
    simp only [run, Option.some.injEq] at h
    subst h
    simp [retainedInserts]
  | cons c cs ih =>
    intro b b1 h
    cases c with
    | addLeaf cm keepPath =>
      simp only [run, step] at h
      have := ih _ b1 h
      rw [addLeaf_leaf] at this
      cases keepPath with
      | true => simpa [retainedInserts] using this
      | false => simpa [retainedInserts] using this
    | cleanup func =>
      simp only [run, step] at h
      cases hc : cleanup b func with
      | none => simp [hc] at h
      | some b2 =>
        simp only [hc] at h
        have h2 := ih b2 b1 h
        rw [(cleanup_some b b2 func hc).2.2.1] at h2
        simp only [retainedInserts]
        exact h2.trans (List.Sublist.append_right (List.filter_sublist _) _)

theorem retainedInserts_length (cs : List (Call Dig)) :
    (retainedInserts cs).length ≤ insertCount cs := by
  induction cs with
  | nil => simp [retainedInserts, insertCount]
  | cons c cs ih =>
    cases c with
    | addLeaf cm keepPath =>
      cases keepPath <;> simp [retainedInserts, insertCount] <;> omega
    | cleanup func => simpa [retainedInserts, insertCount] using ih

theorem run_treeSize (P : Params Tree Path Dig) (cs : List (Call Dig)) :
    ∀ (b b1 : MerkleBundle Tree Path Dig), b.m_treeSize < 2 ^ P.countBits →
      run P b cs = some b1 →
      b1.m_treeSize = (b.m_treeSize + insertCount cs) % 2 ^ P.countBits := by
  induction cs with
  | nil =>
    intro b b1 hb h
    simp only [run, Option.some.injEq] at h
    subst h
    simp [insertCount, Nat.mod_eq_of_lt hb]
  | cons c cs ih =>
    intro b b1 hb h
    cases c with
    | addLeaf cm keepPath =>
      simp only [run, step] at h
      have hlt : (addLeaf P b cm keepPath).2.m_treeSize < 2 ^ P.countBits := by
        rw [treeSize_addLeaf]
        exact Nat.mod_lt _ (Nat.pos_pow_of_pos _ (by decide))
      rw [ih _ b1 hlt h, treeSize_addLeaf, Nat.mod_add_mod]
      simp only [insertCount]
      congr 1
      omega
    | cleanup func =>
      simp only [run, step] at h
      cases hc : cleanup b func with
      | none => simp [hc] at h
      | some b2 =>
        simp only [hc] at h
        have hs := (cleanup_some b b2 func hc).2.1
        rw [ih b2 b1 (by rw [hs]; exact hb) h, hs]
        rfl

/-- C19: along any sequence of `addLeaf` and `cleanup` calls on a freshly
constructed or cleared bundle, the retained leaves are a subsequence, in
insertion order, of the leaves inserted with `keepPath = true`; there are
no more of them than retaining insertions, and no more than insertions.  As
long as the number of insertions fits the counter type, `treeSize()` is
that number, and the retained leaves are no more than `treeSize()`. -/
theorem authLeaf_sublist (P : Params Tree Path Dig) (b0 : MerkleBundle Tree Path Dig)
    (hfresh : b0 = construct0 P ∨ (∃ depth, b0 = construct P depth) ∨ ∃ a, b0 = clear P a)
    (cs : List (Call Dig)) (b : MerkleBundle Tree Path Dig) (hrun : run P b0 cs = some b) :
    List.Sublist b.m_authLeaf (retainedInserts cs) ∧
    b.m_authLeaf.length ≤ (retainedInserts cs).length ∧
    b.m_authLeaf.length ≤ insertCount cs ∧
    (insertCount cs < 2 ^ P.countBits →
      treeSize b = insertCount cs ∧ b.m_authLeaf.length ≤ treeSize b) := by
  have hl : b0.m_authLeaf = [] := by
    rcases hfresh with h | ⟨d, h⟩ | ⟨a, h⟩ <;> subst h <;> rfl
  have hz : b0.m_treeSize = 0 := by
    rcases hfresh with h | ⟨d, h⟩ | ⟨a, h⟩ <;> subst h <;> rfl
  have hsub : List.Sublist b.m_authLeaf (retainedInserts cs) := by
    have := run_leaf_sublist P cs b0 b hrun
    rwa [hl, List.nil_append] at this
  have hlen := hsub.length_le
  have hcnt := retainedInserts_length cs
  refine ⟨hsub, hlen, by omega, fun hfit => ?_⟩
  have hpos : b0.m_treeSize < 2 ^ P.countBits := by
    rw [hz]
    exact Nat.pos_pow_of_pos _ (by decide)
  have hts : treeSize b = insertCount cs := by
    show b.m_treeSize = insertCount cs
    rw [run_treeSize P cs b0 b hpos hrun, hz, Nat.zero_add, Nat.mod_eq_of_lt hfit]
  exact ⟨hts, by rw [hts]; omega⟩

theorem authLeaf_sublist_witness :
    run Fixture.fxParams (construct Fixture.fxParams 2)
      [Call.addLeaf 5 true, Call.addLeaf 9 true, Call.addLeaf 4 true,
        Call.cleanup (fun cm => decide (cm ≠ 9))] = some Fixture.fxThreeKept ∧
    List.Sublist Fixture.fxThreeKept.m_authLeaf [5, 9, 4] ∧
    Fixture.fxThreeKept.m_authLeaf.length ≤ 3 ∧
    treeSize Fixture.fxThreeKept = 3 := by
  have hrun : run Fixture.fxParams (construct Fixture.fxParams 2)
      [Call.addLeaf 5 true, Call.addLeaf 9 true, Call.addLeaf 4 true,
        Call.cleanup (fun cm => decide (cm ≠ 9))] = some Fixture.fxThreeKept := rfl
  have h := authLeaf_sublist Fixture.fxParams (construct Fixture.fxParams 2)
    (Or.inr (Or.inl ⟨2, rfl⟩)) _ Fixture.fxThreeKept hrun
  exact ⟨hrun, h.1, h.2.2.1, (h.2.2.2 (by decide)).1⟩

end MerkleBundle

end Snarkfront
